import Mathlib

/-!
# UserAssistDecoder: embedding of the decoding engine

Shallow embedding of `src/UserAssistDecoder.cpp`: the ROT13 name cipher, the
binary record parser of `ParseUserAssistKey`, the two formatters, the scan
orchestration and the comparison report of `OnCompare`.

Conventions
* `wchar_t` is a UTF-16 code unit, represented by a `Nat`; a `std::wstring`
  is a list of code units (`WString`).
* `DWORD` values are `Nat`s; wrap-around is written `% 2^32` where it can occur.
* the raw value buffer `data[0 .. dataSize)` is a list of bytes (`Fin 256`).
-/

namespace UserAssist

/-! ## Wide strings -/

/-- A `std::wstring`: a sequence of UTF-16 code units. -/
abbrev WString := List Nat

/-- The wide string literal `L"..."` (all literals of the program are in the BMP). -/
def wlit (s : String) : WString := s.toList.map Char.toNat

/-- The conversion `static_cast<wchar_t>(x)` of a non-negative `int`. -/
def toWChar (x : Nat) : Nat := x % 65536

/-! ## NameCipher: `DecodeROT13` -/

/-- One iteration of the `for (wchar_t ch : input)` loop body of `DecodeROT13`:
the code unit appended to `output` for the input unit `ch`
(`L'A'` = 65, `L'Z'` = 90, `L'a'` = 97, `L'z'` = 122). -/
def rot13Char (ch : Nat) : Nat :=
  if 65 ≤ ch ∧ ch ≤ 90 then toWChar ((ch - 65 + 13) % 26 + 65)
  else if 97 ≤ ch ∧ ch ≤ 122 then toWChar ((ch - 97 + 13) % 26 + 97)
  else ch

/-- The loop of `DecodeROT13` with the accumulator `output` made explicit. -/
def DecodeROT13.loop : WString → WString → WString
  | [], output => output
  | ch :: rest, output => DecodeROT13.loop rest (output ++ [rot13Char ch])

/-- The function `std::wstring DecodeROT13(const std::wstring& input)`. -/
def DecodeROT13 (input : WString) : WString := DecodeROT13.loop input []

/-- A code unit is an ASCII letter (`A`-`Z` or `a`-`z`). -/
def isAsciiLetter (ch : Nat) : Prop := (65 ≤ ch ∧ ch ≤ 90) ∨ (97 ≤ ch ∧ ch ≤ 122)

instance (ch : Nat) : Decidable (isAsciiLetter ch) := by
  unfold isAsciiLetter; infer_instance

/-! ## printf-style number rendering -/

/-- Decimal digits of a natural number, most significant first. -/
def decimal (n : Nat) : WString := (Nat.toDigits 10 n).map Char.toNat

/-- The digits and sign printed by the conversion `%d` for a 32-bit argument:
the argument is read as a signed `int`, so a `DWORD` of `2^31` or more prints
as a negative number. Returns `(negative, digits)`. -/
def printfInt (v : Nat) : Bool × WString :=
  if v % 2 ^ 32 < 2 ^ 31 then (false, decimal (v % 2 ^ 32))
  else (true, decimal (2 ^ 32 - v % 2 ^ 32))

/-- The conversion `%0<width>d` (`width = 0` is plain `%d`): sign first, then
zero padding up to the field width, then the digits. -/
def printfD (width : Nat) (v : Nat) : WString :=
  let (neg, digits) := printfInt v
  let sign : WString := if neg then [45] else []
  sign ++ List.replicate (width - (sign.length + digits.length)) 48 ++ digits

/-! ## DurationFormatter: `MsToTimeString` -/

/-- The function `std::wstring MsToTimeString(DWORD milliseconds)`. -/
def MsToTimeString (milliseconds : Nat) : WString :=
  let seconds := milliseconds / 1000
  let minutes := seconds / 60
  let hours := minutes / 60
  let seconds := seconds % 60
  let minutes := minutes % 60
  if hours > 0 then
    printfD 0 hours ++ wlit "h " ++ printfD 2 minutes ++ wlit "m " ++ printfD 2 seconds ++ wlit "s"
  else if minutes > 0 then
    printfD 0 minutes ++ wlit "m " ++ printfD 2 seconds ++ wlit "s"
  else
    printfD 0 seconds ++ wlit "s"

/-- Reference rendering of a duration, following the specification's words:
`h = ms / 3600000`, `m = (ms / 60000) mod 60`, `s = (ms / 1000) mod 60`, the
hour count and a leading minute or second count in plain decimal, the
following ones zero-padded to two digits. -/
def durationReference (ms : Nat) : WString :=
  let h := ms / 3600000
  let m := (ms / 60000) % 60
  let s := (ms / 1000) % 60
  let pad2 (n : Nat) : WString := if n < 10 then 48 :: decimal n else decimal n
  if h > 0 then decimal h ++ wlit "h " ++ pad2 m ++ wlit "m " ++ pad2 s ++ wlit "s"
  else if m > 0 then decimal m ++ wlit "m " ++ pad2 s ++ wlit "s"
  else decimal s ++ wlit "s"

/-! ## TimestampConverter: `FileTimeToString` -/

/-- The Win32 `FILETIME` structure (two `DWORD`s). -/
structure FILETIME where
  dwLowDateTime : Nat
  dwHighDateTime : Nat
deriving DecidableEq, Repr

/-- The Win32 `SYSTEMTIME` structure (eight `WORD`s). -/
structure SYSTEMTIME where
  wYear : Nat
  wMonth : Nat
  wDayOfWeek : Nat
  wDay : Nat
  wHour : Nat
  wMinute : Nat
  wSecond : Nat
  wMilliseconds : Nat
deriving DecidableEq, Repr

/-- The 64-bit tick count held by a `FILETIME`. -/
def FILETIME.ticks (ft : FILETIME) : Nat :=
  ft.dwLowDateTime % 2 ^ 32 + 2 ^ 32 * (ft.dwHighDateTime % 2 ^ 32)

/-- The `swprintf_s` call of `FileTimeToString`:
`"%02d/%02d/%04d %02d:%02d:%02d"` applied to day, month, year, hour, minute,
second (each a `WORD` promoted to `int`). -/
def formatSystemTime (st : SYSTEMTIME) : WString :=
  printfD 2 (st.wDay % 65536) ++ wlit "/" ++ printfD 2 (st.wMonth % 65536) ++ wlit "/" ++
  printfD 4 (st.wYear % 65536) ++ wlit " " ++ printfD 2 (st.wHour % 65536) ++ wlit ":" ++
  printfD 2 (st.wMinute % 65536) ++ wlit ":" ++ printfD 2 (st.wSecond % 65536)

/-- The function `std::wstring FileTimeToString(FILETIME ft)`. The platform conversion
`FileTimeToSystemTime` is the parameter `conv` (`none` when it returns 0). -/
def FileTimeToString (conv : FILETIME → Option SYSTEMTIME) (ft : FILETIME) : WString :=
  if ft.dwLowDateTime = 0 ∧ ft.dwHighDateTime = 0 then wlit "Jamais"
  else
    match conv ft with
    | some st => formatSystemTime st
    | none => wlit "Invalide"

/-- Length of the months of a year. -/
def monthLengths (leap : Bool) : List Nat :=
  [31, if leap then 29 else 28, 31, 30, 31, 30, 31, 31, 30, 31, 30, 31]

/-- Month (1-based) and day of month (1-based) of a 0-based day of the year. -/
def monthAndDay : List Nat → Nat → Nat → Nat × Nat
  | [], month, day => (month, day + 1)
  | len :: rest, month, day =>
    if day < len then (month, day + 1) else monthAndDay rest (month + 1) (day - len)

/-- The Win32 function `FileTimeToSystemTime` as documented: it fails when the
tick count is `0x8000000000000000` or more, and otherwise splits the count of
100-nanosecond ticks since 1601-01-01 00:00:00 UTC (a Monday) into a
Gregorian calendar date and a time of day. -/
def FileTimeToSystemTime (ft : FILETIME) : Option SYSTEMTIME :=
  let t := ft.ticks
  if t ≥ 2 ^ 63 then none
  else
    let ms := t / 10000
    let secs := ms / 1000
    let days := secs / 86400
    let n400 := days / 146097
    let d1 := days % 146097
    let n100 := min (d1 / 36524) 3
    let d2 := d1 - n100 * 36524
    let n4 := d2 / 1461
    let d3 := d2 % 1461
    let n1 := min (d3 / 365) 3
    let d4 := d3 - n1 * 365
    let leap := decide (n1 = 3 ∧ (n4 ≠ 24 ∨ n100 = 3))
    let md := monthAndDay (monthLengths leap) 1 d4
    some { wYear := 1601 + 400 * n400 + 100 * n100 + 4 * n4 + n1
           wMonth := md.1
           wDayOfWeek := (days + 1) % 7
           wDay := md.2
           wHour := secs % 86400 / 3600
           wMinute := secs % 3600 / 60
           wSecond := secs % 60
           wMilliseconds := ms % 1000 }

/-! ## Traced buffer reads -/

/-- One byte of the raw value buffer. -/
abbrev Byte := Fin 256

/-- A computation that reads the raw buffer: `trace` lists every byte offset
it accessed, in order; `val` is `none` as soon as one access was outside the
buffer (undefined behaviour in the program). -/
structure Rd (α : Type) where
  trace : List Nat
  val : Option α

/-- A computation that reads nothing. -/
def Rd.ret {α : Type} (a : α) : Rd α := ⟨[], some a⟩

/-- Sequencing: the second computation runs only when the first stayed in bounds. -/
def Rd.andThen {α β : Type} (x : Rd α) (f : α → Rd β) : Rd β :=
  match x.val with
  | none => ⟨x.trace, none⟩
  | some a => ⟨x.trace ++ (f a).trace, (f a).val⟩

instance : Monad Rd where
  pure := Rd.ret
  bind := Rd.andThen

/-- Access to `data[off]`. -/
def readByte (data : List Byte) (off : Nat) : Rd Nat :=
  ⟨[off], (data[off]?).map Fin.val⟩

/-- A little-endian `DWORD` load at byte offset `off`
(`*reinterpret_cast<DWORD*>(data + off)`): bytes `off .. off + 3`. -/
def readDWORD (data : List Byte) (off : Nat) : Rd Nat := do
  let b0 ← readByte data off
  let b1 ← readByte data (off + 1)
  let b2 ← readByte data (off + 2)
  let b3 ← readByte data (off + 3)
  pure (b0 + 2 ^ 8 * b1 + 2 ^ 16 * b2 + 2 ^ 24 * b3)

/-! ## RecordLayoutInterpreter: the parsing branch of `ParseUserAssistKey` -/

/-- The registry type tag `REG_BINARY`. -/
def REG_BINARY : Nat := 3

/-- The value of `sizeof(USERASSIST_ENTRY_WIN7)` under `#pragma pack(push, 1)`: five
`DWORD`s, one `FILETIME`, ten `DWORD`s. -/
def sizeofEntryWin7 : Nat := 4 + 4 + 4 + 4 + 4 + 8 + 4 * 10

/-- Byte offset of the field `version` in `USERASSIST_ENTRY_WIN7`. -/
def offVersion : Nat := 4
/-- Byte offset of the field `runCount`. -/
def offRunCount : Nat := 8
/-- Byte offset of the field `focusCount`. -/
def offFocusCount : Nat := 12
/-- Byte offset of the field `focusTime`. -/
def offFocusTime : Nat := 16
/-- Byte offset of the field `lastExecution`. -/
def offLastExecution : Nat := 20

/-- Which of the three assignments blocks of the parsing branch ran. The
program keeps no such field; it is recorded here to state which path decoded
a record. -/
inductive LayoutStatus where
  | Modern
  | Legacy
  | Invalid
deriving DecidableEq, Repr

/-- The four fields of `UserAssistEntry` assigned by the parsing branch. -/
structure ParsedData where
  runCount : Nat
  lastExecution : WString
  focusCount : Nat
  focusTime : Nat
deriving DecidableEq, Repr

/-- The `if (dataSize >= sizeof(USERASSIST_ENTRY_WIN7) && type == REG_BINARY)`
statement of `ParseUserAssistKey` (source lines 215-236), where `dataSize` is
the length of `data`. -/
def parseData (conv : FILETIME → Option SYSTEMTIME) (type : Nat) (data : List Byte) :
    Rd (LayoutStatus × ParsedData) :=
  let dataSize := data.length
  if dataSize ≥ sizeofEntryWin7 ∧ type = REG_BINARY then do
    let version ← readDWORD data offVersion
    if version = 3 ∨ version = 5 then do
      let runCount ← readDWORD data offRunCount
      let focusCount ← readDWORD data offFocusCount
      let focusTime ← readDWORD data offFocusTime
      let lo ← readDWORD data offLastExecution
      let hi ← readDWORD data (offLastExecution + 4)
      pure (LayoutStatus.Modern,
        { runCount := runCount, focusCount := focusCount, focusTime := focusTime,
          lastExecution := FileTimeToString conv ⟨lo, hi⟩ })
    else do
      let runCount ← if dataSize ≥ 8 then readDWORD data 4 else pure 0
      pure (LayoutStatus.Legacy,
        { runCount := runCount, focusCount := 0, focusTime := 0,
          lastExecution := wlit "N/A (ancienne version)" })
  else
    pure (LayoutStatus.Invalid,
      { runCount := 0, focusCount := 0, focusTime := 0,
        lastExecution := wlit "Données invalides" })

/-- The little-endian 32-bit value held by bytes `off .. off + 3` of a buffer
(bytes beyond the end count as 0). -/
def le32 (data : List Byte) (off : Nat) : Nat :=
  (data.getD off 0).val + 2 ^ 8 * (data.getD (off + 1) 0).val +
    2 ^ 16 * (data.getD (off + 2) 0).val + 2 ^ 24 * (data.getD (off + 3) 0).val

/-- The little-endian 64-bit value held by bytes `off .. off + 7` of a buffer. -/
def le64 (data : List Byte) (off : Nat) : Nat :=
  le32 data off + 2 ^ 32 * le32 data (off + 4)

/-- The four little-endian bytes of a 32-bit value. -/
def bytesLE32 (v : Nat) : List Byte :=
  [Fin.ofNat v, Fin.ofNat (v / 2 ^ 8), Fin.ofNat (v / 2 ^ 16), Fin.ofNat (v / 2 ^ 24)]

/-- A 68-byte modern record: size 68, version 3, runCount 42, focusCount 7,
focus time 125000 ms, timestamp 0, reserved words 0. -/
def modernExample : List Byte :=
  bytesLE32 68 ++ bytesLE32 3 ++ bytesLE32 42 ++ bytesLE32 7 ++ bytesLE32 125000 ++
    bytesLE32 0 ++ bytesLE32 0 ++ List.replicate 40 0

/-- The four marker texts that `lastExecution` can hold instead of a date. -/
def lastExecutionMarkers : List WString :=
  [wlit "Jamais", wlit "Invalide", wlit "N/A (ancienne version)", wlit "Données invalides"]

/-! ## ArtifactCollector: `ParseUserAssistKey` and `ScanUserAssist` -/

/-- The record `struct UserAssistEntry`. -/
structure UserAssistEntry where
  application : WString
  decodedPath : WString
  runCount : Nat
  lastExecution : WString
  focusCount : Nat
  focusTime : Nat
  guid : WString
  username : WString
deriving DecidableEq, Repr

/-- The constant `GUID_EXECUTABLE`. -/
def GUID_EXECUTABLE : WString := wlit "\x7bCEBFF5CD-ACE2-4F4F-9178-9926F41749EA\x7d"
/-- The constant `GUID_SHORTCUT`. -/
def GUID_SHORTCUT : WString := wlit "\x7bF4E57C4B-2036-45F0-A9AB-443BCFE33D9F\x7d"

/-- The conversion of a `const wchar_t*` to a `std::wstring` (assignment or
argument passing): the code units of the buffer before its first NUL. -/
def wstringOfCStr (buffer : WString) : WString := buffer.takeWhile fun ch => decide (ch ≠ 0)

/-- What one call `RegEnumValueW(hKey, index, ...)` returned for an index that
exists: `success` with the `valueNameSize` code units of the name left in
`valueName` (a terminating NUL follows them; the name itself may hold NUL
code units), the type tag and the `dataSize` bytes left in `data`; or
`failure` for any result other than `ERROR_SUCCESS` and `ERROR_NO_MORE_ITEMS`. -/
inductive EnumOutcome where
  | success (valueName : WString) (type : Nat) (data : List Byte)
  | failure
deriving DecidableEq, Repr

/-- A category key as seen by `ParseUserAssistKey`: `none` when `RegOpenKeyExW`
fails, otherwise the outcomes of `RegEnumValueW` at index 0, 1, 2, ... up to
the index that answers `ERROR_NO_MORE_ITEMS`. -/
abbrev CountKey := Option (List EnumOutcome)

/-- The statements of one successful iteration of the `while (true)` loop
(source lines 205-238) up to the `push_back`: the entry built from a value,
or `none` if the parsing branch read outside the buffer. The buffers
`valueName`, `guid` and `username` are `wchar_t` pointers, converted to
`std::wstring` as C strings where they are passed or assigned. -/
def buildEntry (conv : FILETIME → Option SYSTEMTIME) (guid username : WString)
    (valueName : WString) (type : Nat) (data : List Byte) : Option UserAssistEntry :=
  let decodedName := DecodeROT13 (wstringOfCStr valueName)
  match (parseData conv type data).val with
  | none => none
  | some (_, d) =>
    some { application := wstringOfCStr valueName, decodedPath := decodedName,
           guid := wstringOfCStr guid, username := wstringOfCStr username,
           runCount := d.runCount, focusCount := d.focusCount,
           focusTime := d.focusTime, lastExecution := d.lastExecution }

/-- The `while (true)` loop of `ParseUserAssistKey` over the outcomes that
remain to be enumerated; the state is `index` and the member `entries`.
The end of the outcomes is the `ERROR_NO_MORE_ITEMS` answer (`break`). -/
def ParseUserAssistKey.loop (conv : FILETIME → Option SYSTEMTIME) (guid username : WString) :
    List EnumOutcome → Nat → List UserAssistEntry → Option (Nat × List UserAssistEntry)
  | [], index, entries => some (index, entries)
  | EnumOutcome.failure :: rest, index, entries =>
    ParseUserAssistKey.loop conv guid username rest (index + 1) entries
  | EnumOutcome.success valueName type data :: rest, index, entries =>
    match buildEntry conv guid username valueName type data with
    | none => none
    | some entry =>
      ParseUserAssistKey.loop conv guid username rest (index + 1) (entries ++ [entry])

/-- The function `bool ParseUserAssistKey(HKEY hKeyUser, const wchar_t* guid, const wchar_t* username)`
against the category key `key`, as a function of the member `entries`:
returns the `bool` and the new `entries` (`none`: undefined behaviour). -/
def ParseUserAssistKey (conv : FILETIME → Option SYSTEMTIME) (key : CountKey)
    (guid username : WString) (entries : List UserAssistEntry) :
    Option (Bool × List UserAssistEntry) :=
  match key with
  | none => some (false, entries)
  | some outcomes =>
    match ParseUserAssistKey.loop conv guid username outcomes 0 entries with
    | none => none
    | some (index, entries) => some (decide (index > 0), entries)

/-- The function `bool ScanUserAssist()` as a function of the member `entries`.
`getUserName` is what `GetUserNameW` wrote to the buffer `username` (`none`
when the call fails and the initial text stays there); `keyExecutable` and
`keyShortcut` are the two category keys under `HKEY_CURRENT_USER`. -/
def ScanUserAssist (conv : FILETIME → Option SYSTEMTIME) (getUserName : Option WString)
    (keyExecutable keyShortcut : CountKey) (entries : List UserAssistEntry) :
    Option (Bool × List UserAssistEntry) :=
  let _discarded := entries
  let entries : List UserAssistEntry := []
  let username := getUserName.getD (wlit "Utilisateur actuel")
  match ParseUserAssistKey conv keyExecutable GUID_EXECUTABLE username entries with
  | none => none
  | some (_, entries) =>
    match ParseUserAssistKey conv keyShortcut GUID_SHORTCUT username entries with
    | none => none
    | some (_, entries) => some (!entries.isEmpty, entries)

/-- Names of the successful outcomes of a category, in enumeration order,
following the specification's words: nothing for a key that cannot be opened,
one name per successful outcome, none per read failure. -/
def successfulNames : CountKey → List WString
  | none => []
  | some outcomes =>
    outcomes.filterMap fun o =>
      match o with
      | EnumOutcome.failure => none
      | EnumOutcome.success name _ _ => some name

/-- The naming fields of a record: encoded name, decoded name, owner group,
owner identity. -/
def UserAssistEntry.naming (e : UserAssistEntry) : WString × WString × WString × WString :=
  (e.application, e.decodedPath, e.guid, e.username)

/-- The naming fields the specification gives the record of a raw name. -/
def expectedNaming (guid identity name : WString) : WString × WString × WString × WString :=
  (name, DecodeROT13 name, guid, identity)

/-! ## UsageReporter: `OnCompare` -/

/-- A `UserAssistEntry*` into the vector `entries`: the position pointed to
and the entry found there. -/
structure EntryPtr where
  addr : Nat
  target : UserAssistEntry
deriving DecidableEq, Repr

/-- The `operator<` of `std::wstring`: lexicographic comparison of code units. -/
def wstrLt : WString → WString → Bool
  | [], [] => false
  | [], _ :: _ => true
  | _ :: _, [] => false
  | a :: as, b :: bs => if a < b then true else if b < a then false else wstrLt as bs

/-- A `std::map<std::wstring, std::vector<UserAssistEntry*>>`: its pairs in
iteration order (ascending keys). -/
abbrev UserMap := List (WString × List EntryPtr)

/-- The statement `m[key].push_back(p)`: appends to the vector of an existing
key, or inserts the key at its place with the one-element vector. -/
def UserMap.pushBack : UserMap → WString → EntryPtr → UserMap
  | [], key, p => [(key, [p])]
  | (k, v) :: rest, key, p =>
    if key = k then (k, v ++ [p]) :: rest
    else if wstrLt key k then (key, [p]) :: (k, v) :: rest
    else (k, v) :: UserMap.pushBack rest key p

/-- The loop `for (auto& entry : entries) userEntries[entry.username].push_back(&entry)`
over the entries from position `addr` on. -/
def groupLoop : List UserAssistEntry → Nat → UserMap → UserMap
  | [], _, m => m
  | entry :: rest, addr, m => groupLoop rest (addr + 1) (m.pushBack entry.username ⟨addr, entry⟩)

/-- The map `userEntries` after the grouping loop. -/
def userEntries (entries : List UserAssistEntry) : UserMap := groupLoop entries 0 []

/-- The comparison lambda passed to `std::sort`: `a->runCount > b->runCount`. -/
def byRunCount (a b : EntryPtr) : Bool := decide (a.target.runCount > b.target.runCount)

/-- A sorting routine: comparison function and sequence in, sequence out. -/
abbrev SortFn := (EntryPtr → EntryPtr → Bool) → List EntryPtr → List EntryPtr

/-- A strict weak ordering, the requirement of `std::sort` on its comparison. -/
def StrictWeakOrder (cmp : EntryPtr → EntryPtr → Bool) : Prop :=
  (∀ a, cmp a a = false) ∧
  (∀ a b c, cmp a b = true → cmp b c = true → cmp a c = true) ∧
  (∀ a b c, cmp a b = false → cmp b c = false → cmp a c = false)

/-- What the C++ standard guarantees of `std::sort(first, last, comp)`: the
result is a rearrangement of the input in which no element compares less than
an element before it. The order of equivalent elements is not guaranteed. -/
def StdSortSpec (sort : SortFn) : Prop :=
  ∀ cmp l, StrictWeakOrder cmp →
    (sort cmp l).Perm l ∧ (sort cmp l).Pairwise (fun a b => cmp b a = false)

/-- One ranked line of the report: `<rank>. <decodedPath> (<runCount> fois)`. -/
structure ReportLine where
  rank : Nat
  decodedPath : WString
  runCount : Nat
deriving DecidableEq, Repr

/-- The block of the report for one user: the name, the number of
applications, and the ranked lines. -/
structure ReportGroup where
  username : WString
  count : Nat
  top : List ReportLine
deriving DecidableEq, Repr

/-- The vector `sorted` for one map entry: a copy of the pointers, sorted by
`std::sort` with the run-count comparison. -/
def ranked (sort : SortFn) (ptrs : List EntryPtr) : List EntryPtr := sort byRunCount ptrs

/-- The loop `for (size_t i = 0; i < std::min(size_t(5), sorted.size()); i++)`:
one line per element among the first five, ranked from 1. -/
def topLines (sorted : List EntryPtr) : List ReportLine :=
  (List.enumFrom 1 (sorted.take 5)).map fun ip =>
    { rank := ip.1, decodedPath := ip.2.target.decodedPath, runCount := ip.2.target.runCount }

/-- The body of the loop `for (const auto& pair : userEntries)`. -/
def reportGroup (sort : SortFn) (pair : WString × List EntryPtr) : ReportGroup :=
  { username := pair.1, count := pair.2.length, top := topLines (ranked sort pair.2) }

/-- The function `void OnCompare()`: the values written to the report, one group per map
entry in map order; `none` when `entries` is empty (only a message box is
shown). `sort` stands for `std::sort`. -/
def OnCompare (sort : SortFn) (entries : List UserAssistEntry) : Option (List ReportGroup) :=
  if entries.isEmpty then none
  else some ((userEntries entries).map (reportGroup sort))

/-- An insertion of `x` into a sequence sorted for `cmp`: `x` passes the
elements that compare less than it and stops at the first that does not. -/
def insertSorted (cmp : EntryPtr → EntryPtr → Bool) (x : EntryPtr) : List EntryPtr → List EntryPtr
  | [] => [x]
  | y :: ys => if cmp y x then y :: insertSorted cmp x ys else x :: y :: ys

/-- Insertion sort: one admissible behaviour of `std::sort`; it keeps
equivalent elements in their input order. -/
def insertionSort : SortFn := fun cmp l => l.foldr (insertSorted cmp) []

/-! ## The GNU implementation of `std::sort`

The routines of libstdc++ (`bits/stl_algo.h`, `bits/stl_heap.h`) behind
`std::sort(first, last, comp)`, on a vector of `UserAssistEntry*`. The vector
is the list `a`; iterators are positions in it; a result `none` is an access
outside the vector (or an exhausted iteration budget). -/

/-- The assignment `*(a + i) = v`. -/
def Gnu.storeAt (a : List EntryPtr) (i : Nat) (v : EntryPtr) : Option (List EntryPtr) :=
  if i < a.length then some (a.set i v) else none

/-- The call `std::iter_swap(a + i, a + j)`. -/
def Gnu.iterSwap (a : List EntryPtr) (i j : Nat) : Option (List EntryPtr) := do
  let x ← a[i]?
  let y ← a[j]?
  let a ← Gnu.storeAt a i y
  Gnu.storeAt a j x

/-- The comparison `comp(a + i, a + j)` of two iterators. -/
def Gnu.compAt (cmp : EntryPtr → EntryPtr → Bool) (a : List EntryPtr) (i j : Nat) :
    Option Bool := do
  let x ← a[i]?
  let y ← a[j]?
  pure (cmp x y)

/-- The routine `__move_median_to_first(result, x, y, z, comp)`. -/
def Gnu.moveMedianToFirst (cmp : EntryPtr → EntryPtr → Bool) (a : List EntryPtr)
    (result x y z : Nat) : Option (List EntryPtr) := do
  if (← Gnu.compAt cmp a x y) then
    if (← Gnu.compAt cmp a y z) then Gnu.iterSwap a result y
    else if (← Gnu.compAt cmp a x z) then Gnu.iterSwap a result z
    else Gnu.iterSwap a result x
  else if (← Gnu.compAt cmp a x z) then Gnu.iterSwap a result x
  else if (← Gnu.compAt cmp a y z) then Gnu.iterSwap a result z
  else Gnu.iterSwap a result y

/-- The loop `while (comp(first, pivot)) ++first;` of `__unguarded_partition`. -/
def Gnu.scanUp (cmp : EntryPtr → EntryPtr → Bool) (a : List EntryPtr) (pivot : Nat) :
    Nat → Nat → Option Nat
  | 0, _ => none
  | fuel + 1, first => do
    if (← Gnu.compAt cmp a first pivot) then Gnu.scanUp cmp a pivot fuel (first + 1)
    else pure first

/-- The loop `while (comp(pivot, last)) --last;` of `__unguarded_partition`. -/
def Gnu.scanDown (cmp : EntryPtr → EntryPtr → Bool) (a : List EntryPtr) (pivot : Nat) :
    Nat → Nat → Option Nat
  | 0, _ => none
  | fuel + 1, last => do
    if (← Gnu.compAt cmp a pivot last) then
      if last = 0 then none else Gnu.scanDown cmp a pivot fuel (last - 1)
    else pure last

/-- The routine `__unguarded_partition(first, last, pivot, comp)`: the cut
position and the vector. Every pass of the outer loop advances `first`. -/
def Gnu.unguardedPartition (cmp : EntryPtr → EntryPtr → Bool) (pivot : Nat) :
    Nat → List EntryPtr → Nat → Nat → Option (Nat × List EntryPtr)
  | 0, _, _, _ => none
  | fuel + 1, a, first, last => do
    let first ← Gnu.scanUp cmp a pivot (a.length + 1) first
    if last = 0 then none
    else
      let last ← Gnu.scanDown cmp a pivot (a.length + 1) (last - 1)
      if first < last then
        let a ← Gnu.iterSwap a first last
        Gnu.unguardedPartition cmp pivot fuel a (first + 1) last
      else pure (first, a)

/-- The routine `__unguarded_partition_pivot(first, last, comp)`. -/
def Gnu.unguardedPartitionPivot (cmp : EntryPtr → EntryPtr → Bool) (a : List EntryPtr)
    (first last : Nat) : Option (Nat × List EntryPtr) := do
  let mid := first + (last - first) / 2
  let a ← Gnu.moveMedianToFirst cmp a first (first + 1) mid (last - 1)
  Gnu.unguardedPartition cmp first (a.length + 1) a (first + 1) last

/-- The loop of `__unguarded_linear_insert(last, comp)` with `val` taken out:
`next` is `last - 1`; it has no bound check of its own. -/
def Gnu.unguardedLinearInsert.loop (cmp : EntryPtr → EntryPtr → Bool) (val : EntryPtr) :
    Nat → List EntryPtr → Nat → Option (List EntryPtr)
  | 0, _, _ => none
  | fuel + 1, a, last =>
    if last = 0 then none
    else do
      let next ← a[last - 1]?
      if cmp val next then
        let a ← Gnu.storeAt a last next
        Gnu.unguardedLinearInsert.loop cmp val fuel a (last - 1)
      else Gnu.storeAt a last val

/-- The routine `__unguarded_linear_insert(last, comp)`. -/
def Gnu.unguardedLinearInsert (cmp : EntryPtr → EntryPtr → Bool) (a : List EntryPtr)
    (last : Nat) : Option (List EntryPtr) := do
  let val ← a[last]?
  Gnu.unguardedLinearInsert.loop cmp val (last + 1) a last

/-- The `for` loop of `__insertion_sort(first, last, comp)` from position `i`,
with `n = last - i` passes left. -/
def Gnu.insertionSort.loop (cmp : EntryPtr → EntryPtr → Bool) (first : Nat) :
    Nat → List EntryPtr → Nat → Option (List EntryPtr)
  | 0, a, _ => some a
  | n + 1, a, i => do
    if (← Gnu.compAt cmp a i first) then
      let val ← a[i]?
      let a := a.take first ++ val :: (a.drop first).take (i - first) ++ a.drop (i + 1)
      Gnu.insertionSort.loop cmp first n a (i + 1)
    else
      let a ← Gnu.unguardedLinearInsert cmp a i
      Gnu.insertionSort.loop cmp first n a (i + 1)

/-- The routine `__insertion_sort(first, last, comp)`. -/
def Gnu.insertionSort (cmp : EntryPtr → EntryPtr → Bool) (a : List EntryPtr)
    (first last : Nat) : Option (List EntryPtr) :=
  if first = last then some a
  else Gnu.insertionSort.loop cmp first (last - (first + 1)) a (first + 1)

/-- The routine `__unguarded_insertion_sort(first, last, comp)` from position
`i`, with `n = last - i` passes left. -/
def Gnu.unguardedInsertionSort (cmp : EntryPtr → EntryPtr → Bool) :
    Nat → List EntryPtr → Nat → Option (List EntryPtr)
  | 0, a, _ => some a
  | n + 1, a, i => do
    let a ← Gnu.unguardedLinearInsert cmp a i
    Gnu.unguardedInsertionSort cmp n a (i + 1)

/-- The constant `_S_threshold`. -/
def Gnu.threshold : Nat := 16

/-- The routine `__final_insertion_sort(first, last, comp)`. -/
def Gnu.finalInsertionSort (cmp : EntryPtr → EntryPtr → Bool) (a : List EntryPtr)
    (first last : Nat) : Option (List EntryPtr) :=
  if last - first > Gnu.threshold then do
    let a ← Gnu.insertionSort cmp a first (first + Gnu.threshold)
    Gnu.unguardedInsertionSort cmp (last - (first + Gnu.threshold)) a (first + Gnu.threshold)
  else Gnu.insertionSort cmp a first last

/-- The loop of `__push_heap(first, holeIndex, topIndex, value, comp)`. -/
def Gnu.pushHeap (cmp : EntryPtr → EntryPtr → Bool) (first topIndex : Nat) (value : EntryPtr) :
    Nat → List EntryPtr → Nat → Option (List EntryPtr)
  | 0, _, _ => none
  | fuel + 1, a, holeIndex =>
    let parent := (holeIndex - 1) / 2
    if holeIndex > topIndex then do
      let p ← a[first + parent]?
      if cmp p value then
        let a ← Gnu.storeAt a (first + holeIndex) p
        Gnu.pushHeap cmp first topIndex value fuel a parent
      else Gnu.storeAt a (first + holeIndex) value
    else Gnu.storeAt a (first + holeIndex) value

/-- The `while` loop of `__adjust_heap`: the vector, `holeIndex` and
`secondChild` when it ends. -/
def Gnu.adjustHeap.loop (cmp : EntryPtr → EntryPtr → Bool) (first len : Nat) :
    Nat → List EntryPtr → Nat → Nat → Option (List EntryPtr × Nat × Nat)
  | 0, _, _, _ => none
  | fuel + 1, a, holeIndex, secondChild =>
    if secondChild < (len - 1) / 2 then do
      let secondChild := 2 * (secondChild + 1)
      let secondChild :=
        if (← Gnu.compAt cmp a (first + secondChild) (first + (secondChild - 1))) then
          secondChild - 1
        else secondChild
      let v ← a[first + secondChild]?
      let a ← Gnu.storeAt a (first + holeIndex) v
      Gnu.adjustHeap.loop cmp first len fuel a secondChild secondChild
    else pure (a, holeIndex, secondChild)

/-- The routine `__adjust_heap(first, holeIndex, len, value, comp)`
(`len` is at least 1 at every call). -/
def Gnu.adjustHeap (cmp : EntryPtr → EntryPtr → Bool) (a : List EntryPtr)
    (first holeIndex len : Nat) (value : EntryPtr) : Option (List EntryPtr) := do
  let topIndex := holeIndex
  let (a, holeIndex, secondChild) ←
    Gnu.adjustHeap.loop cmp first len (len + 1) a holeIndex holeIndex
  if len % 2 = 0 ∧ 2 ≤ len ∧ secondChild = (len - 2) / 2 then
    let secondChild := 2 * (secondChild + 1)
    let v ← a[first + (secondChild - 1)]?
    let a ← Gnu.storeAt a (first + holeIndex) v
    Gnu.pushHeap cmp first topIndex value (len + 1) a (secondChild - 1)
  else Gnu.pushHeap cmp first topIndex value (len + 1) a holeIndex

/-- The routine `__pop_heap(first, last, result, comp)`. -/
def Gnu.popHeap (cmp : EntryPtr → EntryPtr → Bool) (a : List EntryPtr)
    (first last result : Nat) : Option (List EntryPtr) := do
  let value ← a[result]?
  let top ← a[first]?
  let a ← Gnu.storeAt a result top
  Gnu.adjustHeap cmp a first 0 (last - first) value

/-- The `while (true)` loop of `__make_heap` from `parent` down to 0. -/
def Gnu.makeHeap.loop (cmp : EntryPtr → EntryPtr → Bool) (first len : Nat) :
    Nat → List EntryPtr → Option (List EntryPtr)
  | 0, a => do
    let value ← a[first]?
    Gnu.adjustHeap cmp a first 0 len value
  | parent + 1, a => do
    let value ← a[first + (parent + 1)]?
    let a ← Gnu.adjustHeap cmp a first (parent + 1) len value
    Gnu.makeHeap.loop cmp first len parent a

/-- The routine `__make_heap(first, last, comp)`. -/
def Gnu.makeHeap (cmp : EntryPtr → EntryPtr → Bool) (a : List EntryPtr)
    (first last : Nat) : Option (List EntryPtr) :=
  if last - first < 2 then some a
  else Gnu.makeHeap.loop cmp first (last - first) ((last - first - 2) / 2) a

/-- The routine `__sort_heap(first, last, comp)` with `n = last - first`. -/
def Gnu.sortHeap (cmp : EntryPtr → EntryPtr → Bool) (first : Nat) :
    Nat → List EntryPtr → Option (List EntryPtr)
  | 0, a => some a
  | n + 1, a =>
    if n + 1 > 1 then do
      let a ← Gnu.popHeap cmp a first (first + n) (first + n)
      Gnu.sortHeap cmp first n a
    else some a

/-- The `for` loop of `__heap_select(first, middle, last, comp)` from position
`i`, with `n = last - i` passes left. -/
def Gnu.heapSelect.loop (cmp : EntryPtr → EntryPtr → Bool) (first middle : Nat) :
    Nat → List EntryPtr → Nat → Option (List EntryPtr)
  | 0, a, _ => some a
  | n + 1, a, i => do
    if (← Gnu.compAt cmp a i first) then
      let a ← Gnu.popHeap cmp a first middle i
      Gnu.heapSelect.loop cmp first middle n a (i + 1)
    else Gnu.heapSelect.loop cmp first middle n a (i + 1)

/-- The routine `__partial_sort(first, middle, last, comp)`: `__heap_select`
followed by `__sort_heap(first, middle, comp)`. -/
def Gnu.partialSort (cmp : EntryPtr → EntryPtr → Bool) (a : List EntryPtr)
    (first middle last : Nat) : Option (List EntryPtr) := do
  let a ← Gnu.makeHeap cmp a first middle
  let a ← Gnu.heapSelect.loop cmp first middle (last - middle) a middle
  Gnu.sortHeap cmp first (middle - first) a

/-- The routine `__introsort_loop(first, last, depth_limit, comp)`; each pass
of its loop and each nested call lowers `depth_limit` by one. -/
def Gnu.introsortLoop (cmp : EntryPtr → EntryPtr → Bool) :
    Nat → List EntryPtr → Nat → Nat → Option (List EntryPtr)
  | 0, a, first, last =>
    if last - first > Gnu.threshold then Gnu.partialSort cmp a first last last
    else some a
  | depthLimit + 1, a, first, last =>
    if last - first > Gnu.threshold then do
      let (cut, a) ← Gnu.unguardedPartitionPivot cmp a first last
      let a ← Gnu.introsortLoop cmp depthLimit a cut last
      Gnu.introsortLoop cmp depthLimit a first cut
    else some a

/-- The helper `__lg(n)`: the position of the highest set bit of `n`. -/
def Gnu.lg : Nat → Nat → Nat
  | 0, _ => 0
  | fuel + 1, n => if 2 ≤ n then Gnu.lg fuel (n / 2) + 1 else 0

/-- The routine `std::__sort(first, last, comp)` on the whole vector: what
`std::sort(v.begin(), v.end(), comp)` runs. -/
def Gnu.sort (cmp : EntryPtr → EntryPtr → Bool) (a : List EntryPtr) :
    Option (List EntryPtr) :=
  if a.length = 0 then some a
  else do
    let a ← Gnu.introsortLoop cmp (Gnu.lg a.length a.length * 2) a 0 a.length
    Gnu.finalInsertionSort cmp a 0 a.length

/-- The sorting routine `std::sort` of libstdc++ (the vector is left as it is
where `Gnu.sort` has no result). -/
def gnuSort : SortFn := fun cmp l => (Gnu.sort cmp l).getD l

/-- The record at position `i` of `seventeenTied`: user `alice`, decoded name
`app<i>`, run count 1. -/
def tiedEntry (i : Nat) : UserAssistEntry :=
  { application := DecodeROT13 (wlit "app" ++ decimal i), decodedPath := wlit "app" ++ decimal i,
    runCount := 1, lastExecution := wlit "Jamais", focusCount := 0, focusTime := 0,
    guid := GUID_EXECUTABLE, username := wlit "alice" }

/-- Seventeen records of one user, all with run count 1, named `app0` to
`app16` in the order of the sequence. -/
def seventeenTied : List UserAssistEntry := (List.range 17).map tiedEntry

/-- The ranking is stable on `entries`: in every group, two pointers with
equal run counts are ranked in the order of their positions in `entries`. -/
def RankingStable (sort : SortFn) (entries : List UserAssistEntry) : Prop :=
  ∀ pair ∈ userEntries entries, ∀ a ∈ pair.2, ∀ b ∈ pair.2,
    a.addr < b.addr → a.target.runCount = b.target.runCount →
      List.Sublist [a, b] (ranked sort pair.2)

/-- A record with only the fields the report uses filled in. -/
def sampleEntry (user name : String) (runCount : Nat) : UserAssistEntry :=
  { application := DecodeROT13 (wlit name), decodedPath := wlit name, runCount := runCount,
    lastExecution := wlit "Jamais", focusCount := 0, focusTime := 0,
    guid := GUID_EXECUTABLE, username := wlit user }

/-- The records `[(alice, 10), (alice, 50), (bob, 5)]`. -/
def sampleEntries : List UserAssistEntry :=
  [sampleEntry "alice" "a.exe" 10, sampleEntry "alice" "b.exe" 50, sampleEntry "bob" "c.exe" 5]

/-- The pointers to the entries of a vector, from position `addr` on. -/
def ptrsFrom : List UserAssistEntry → Nat → List EntryPtr
  | [], _ => []
  | entry :: rest, addr => ⟨addr, entry⟩ :: ptrsFrom rest (addr + 1)

/-- The pointers to the records of one owner, in the order of the record
sequence. -/
def ownerPtrs (entries : List UserAssistEntry) (user : WString) : List EntryPtr :=
  (ptrsFrom entries 0).filter fun p => decide (p.target.username = user)

/-- The vector stored under `key` in the map (empty when the key is absent). -/
def UserMap.find : UserMap → WString → List EntryPtr
  | [], _ => []
  | (k, v) :: rest, key => if key = k then v else UserMap.find rest key

/-- The keys of the map are in strictly ascending order. -/
def UserMap.KeysSorted (m : UserMap) : Prop :=
  (m.map Prod.fst).Pairwise fun a b => wstrLt a b = true

/-- A 16-byte record in the layout of Windows XP: session 1, counter 7,
timestamp 0. -/
def xpExample : List Byte :=
  bytesLE32 1 ++ bytesLE32 7 ++ bytesLE32 0 ++ bytesLE32 0

/-- A 68-byte modern record (version 3, runCount 42) whose timestamp is
`0x8000000000000000`, a tick count `FileTimeToSystemTime` rejects. -/
def badTimeExample : List Byte :=
  bytesLE32 68 ++ bytesLE32 3 ++ bytesLE32 42 ++ bytesLE32 7 ++ bytesLE32 125000 ++
    bytesLE32 0 ++ bytesLE32 (2 ^ 31) ++ List.replicate 40 0

/-- The field `lastExecution` holds a date, none of the four marker texts. -/
def lastExecutedPresent (d : ParsedData) : Prop := d.lastExecution ∉ lastExecutionMarkers

instance (d : ParsedData) : Decidable (lastExecutedPresent d) := by
  unfold lastExecutedPresent; infer_instance

/-- A 68-byte modern record (version 5, runCount 3) whose timestamp is
132223104000000000 ticks, that is 2020-01-01 00:00:00 UTC. -/
def datedExample : List Byte :=
  bytesLE32 68 ++ bytesLE32 5 ++ bytesLE32 3 ++ bytesLE32 1 ++ bytesLE32 2000 ++
    bytesLE32 (132223104000000000 % 2 ^ 32) ++ bytesLE32 (132223104000000000 / 2 ^ 32) ++
    List.replicate 40 0

/-- A category key with three values: a modern record, a value whose read
fails, and a short record. -/
def sampleKey : CountKey :=
  some [EnumOutcome.success (wlit "HRZR_PGYFRFFVBA") REG_BINARY modernExample,
        EnumOutcome.failure,
        EnumOutcome.success (wlit "P:\\Gbbyf\\n1.rkr") REG_BINARY xpExample]

/-- A 68-byte binary record whose version field is 2 (neither 3 nor 5); its
other fields are those of `modernExample`. -/
def legacyExample : List Byte :=
  bytesLE32 68 ++ bytesLE32 2 ++ bytesLE32 42 ++ bytesLE32 7 ++ bytesLE32 125000 ++
    bytesLE32 0 ++ bytesLE32 0 ++ List.replicate 40 0

/-! ## Theorems -/

theorem DecodeROT13.loop_eq (input output : WString) :
    DecodeROT13.loop input output = output ++ input.map rot13Char := by
  induction input generalizing output with
  | nil => simp [DecodeROT13.loop]
  | cons ch rest ih => simp [DecodeROT13.loop, ih]

theorem DecodeROT13_eq_map (input : WString) :
    DecodeROT13 input = input.map rot13Char := by
  simp [DecodeROT13, DecodeROT13.loop_eq]

theorem rot13Char_rot13Char (ch : Nat) : rot13Char (rot13Char ch) = ch := by
  unfold rot13Char toWChar
  split_ifs <;> omega

theorem rot13Char_of_not_letter (ch : Nat) (h : ¬ isAsciiLetter ch) : rot13Char ch = ch := by
  unfold isAsciiLetter at h
  unfold rot13Char
  split_ifs
  · exfalso; omega
  · exfalso; omega
  · rfl

/-- C2: `DecodeROT13` is self-inverse on every wide string (every sequence of
code units, the empty string included): decoding twice gives the input back. -/
theorem DecodeROT13_involutive (s : WString) : DecodeROT13 (DecodeROT13 s) = s := by
  simp only [DecodeROT13_eq_map, List.map_map]
  conv_rhs => rw [← List.map_id s]
  apply List.map_congr_left
  intro ch _
  simp [rot13Char_rot13Char]

/-! ### The parsing branch -/

theorem Rd.bind_eq {α β : Type} (x : Rd α) (f : α → Rd β) : (x >>= f) = Rd.andThen x f := rfl

theorem Rd.pure_eq {α : Type} (a : α) : (pure a : Rd α) = Rd.ret a := rfl

theorem readByte_of_lt (data : List Byte) (off : Nat) (h : off < data.length) :
    readByte data off = ⟨[off], some (data.getD off 0).val⟩ := by
  simp [readByte, List.getD, List.getElem?_eq_getElem h]

theorem readDWORD_of_lt (data : List Byte) (off : Nat) (h : off + 3 < data.length) :
    readDWORD data off = ⟨[off, off + 1, off + 2, off + 3], some (le32 data off)⟩ := by
  have h0 : off < data.length := by omega
  have h1 : off + 1 < data.length := by omega
  have h2 : off + 2 < data.length := by omega
  simp [readDWORD, Rd.bind_eq, Rd.pure_eq, Rd.andThen, Rd.ret, readByte_of_lt, h0, h1, h2, h, le32]

/-- The parsing branch on a binary buffer of at least 68 bytes whose version
field is 3 or 5: the modern assignments, after reading bytes 4 to 27. -/
theorem parseData_modern (conv : FILETIME → Option SYSTEMTIME) (type : Nat) (data : List Byte)
    (hsize : 68 ≤ data.length) (htype : type = REG_BINARY)
    (hver : le32 data 4 = 3 ∨ le32 data 4 = 5) :
    parseData conv type data =
      ⟨List.range' 4 24, some (LayoutStatus.Modern,
        { runCount := le32 data 8, focusCount := le32 data 12, focusTime := le32 data 16,
          lastExecution := FileTimeToString conv ⟨le32 data 20, le32 data 24⟩ })⟩ := by
  have hg : data.length ≥ sizeofEntryWin7 ∧ type = REG_BINARY := ⟨hsize, htype⟩
  simp only [parseData, if_pos hg, offVersion, offRunCount, offFocusCount, offFocusTime,
    offLastExecution]
  rw [readDWORD_of_lt data 4 (by omega), readDWORD_of_lt data 8 (by omega),
    readDWORD_of_lt data 12 (by omega), readDWORD_of_lt data 16 (by omega),
    readDWORD_of_lt data 20 (by omega), readDWORD_of_lt data (20 + 4) (by omega)]
  simp [Rd.bind_eq, Rd.pure_eq, Rd.andThen, Rd.ret, hver, List.range']

/-- The parsing branch on a binary buffer of at least 68 bytes whose version
field is neither 3 nor 5: the legacy assignments, after reading bytes 4 to 7
twice (once as the version, once as the counter). -/
theorem parseData_legacy (conv : FILETIME → Option SYSTEMTIME) (type : Nat) (data : List Byte)
    (hsize : 68 ≤ data.length) (htype : type = REG_BINARY)
    (hver : ¬ (le32 data 4 = 3 ∨ le32 data 4 = 5)) :
    parseData conv type data =
      ⟨[4, 5, 6, 7, 4, 5, 6, 7], some (LayoutStatus.Legacy,
        { runCount := le32 data 4, focusCount := 0, focusTime := 0,
          lastExecution := wlit "N/A (ancienne version)" })⟩ := by
  have hg : data.length ≥ sizeofEntryWin7 ∧ type = REG_BINARY := ⟨hsize, htype⟩
  have h8 : data.length ≥ 8 := by omega
  simp only [parseData, if_pos hg, offVersion, if_pos h8]
  rw [readDWORD_of_lt data 4 (by omega)]
  simp [Rd.bind_eq, Rd.pure_eq, Rd.andThen, Rd.ret, hver]

/-- The parsing branch on a buffer shorter than 68 bytes or not declared
binary: the invalid-data assignments, without any read. -/
theorem parseData_invalid (conv : FILETIME → Option SYSTEMTIME) (type : Nat) (data : List Byte)
    (h : ¬ (68 ≤ data.length ∧ type = REG_BINARY)) :
    parseData conv type data =
      ⟨[], some (LayoutStatus.Invalid,
        { runCount := 0, focusCount := 0, focusTime := 0,
          lastExecution := wlit "Données invalides" })⟩ := by
  have hg : ¬ (data.length ≥ sizeofEntryWin7 ∧ type = REG_BINARY) := h
  simp only [parseData, if_neg hg]
  rfl

/-- C1: for every declared type and every buffer (of any length `n`, whatever
its bytes and whatever size its first field claims), every byte offset read
by the parsing branch of `ParseUserAssistKey` is below `n`, and no read falls
outside the buffer (the branch always yields its result). On the modern
example truncated to 6 bytes it reads nothing and takes the invalid-data path. -/
theorem parseData_reads_in_bounds (conv : FILETIME → Option SYSTEMTIME) (type : Nat)
    (data : List Byte) :
    (∀ off ∈ (parseData conv type data).trace, off < data.length) ∧
    (parseData conv type data).val.isSome = true ∧
    (parseData conv REG_BINARY (modernExample.take 6)).trace = [] ∧
    ((parseData conv REG_BINARY (modernExample.take 6)).val.map Prod.fst) =
      some LayoutStatus.Invalid := by
  refine ⟨?_, ?_, ?_, ?_⟩
  · by_cases hg : 68 ≤ data.length ∧ type = REG_BINARY
    · by_cases hver : le32 data 4 = 3 ∨ le32 data 4 = 5
      · rw [parseData_modern conv type data hg.1 hg.2 hver]
        intro off hoff
        simp only [List.mem_range'_1] at hoff
        omega
      · rw [parseData_legacy conv type data hg.1 hg.2 hver]
        intro off hoff
        simp only [List.mem_cons, List.mem_singleton, List.not_mem_nil, or_false] at hoff
        omega
    · rw [parseData_invalid conv type data hg]
      intro off hoff
      simp at hoff
  · by_cases hg : 68 ≤ data.length ∧ type = REG_BINARY
    · by_cases hver : le32 data 4 = 3 ∨ le32 data 4 = 5
      · rw [parseData_modern conv type data hg.1 hg.2 hver]; rfl
      · rw [parseData_legacy conv type data hg.1 hg.2 hver]; rfl
    · rw [parseData_invalid conv type data hg]; rfl
  · rw [parseData_invalid conv _ _ (by decide)]
  · rw [parseData_invalid conv _ _ (by decide)]; rfl

theorem le32_lt (data : List Byte) (off : Nat) : le32 data off < 2 ^ 32 := by
  unfold le32
  have h0 := (data.getD off 0).isLt
  have h1 := (data.getD (off + 1) 0).isLt
  have h2 := (data.getD (off + 2) 0).isLt
  have h3 := (data.getD (off + 3) 0).isLt
  omega

theorem le32_append_of_le (pre rest : List Byte) (off : Nat) (h : pre.length ≤ off) :
    le32 (pre ++ rest) off = le32 rest (off - pre.length) := by
  have e : ∀ k, (pre ++ rest).getD (off + k) 0 = rest.getD (off - pre.length + k) 0 := by
    intro k
    rw [List.getD_append_right _ _ _ _ (by omega)]
    congr 1
    omega
  have e0 := e 0
  simp only [Nat.add_zero] at e0
  simp only [le32, e, e0]

/-- C4: on every buffer declared `REG_BINARY` of at least 68 bytes whose
little-endian version field (offset 4) is 3 or 5, the parsing branch takes the
modern path and yields runCount, focusCount and focusTime equal to the
little-endian 32-bit values at offsets 8, 12 and 16, and the date text of the
64-bit timestamp at offset 20; the four bytes of the size field at offset 0
have no influence. For version 3, runCount 42, focusCount 7, focus time
125000 and timestamp 0, the record is modern with runCount 42 and the
never-executed marker. -/
theorem parseData_modern_fields (conv : FILETIME → Option SYSTEMTIME) (type : Nat)
    (data : List Byte) (htype : type = REG_BINARY) (hsize : 68 ≤ data.length)
    (hver : le32 data 4 = 3 ∨ le32 data 4 = 5) :
    (parseData conv type data).val =
      some (LayoutStatus.Modern,
        { runCount := le32 data 8, focusCount := le32 data 12, focusTime := le32 data 16,
          lastExecution := FileTimeToString conv ⟨le32 data 20, le32 data 24⟩ }) ∧
    (⟨le32 data 20, le32 data 24⟩ : FILETIME).ticks = le64 data 20 ∧
    (∀ size size2 rest : List Byte, size.length = 4 → size2.length = 4 →
      data = size ++ rest →
      (parseData conv type (size2 ++ rest)).val = (parseData conv type data).val) ∧
    (parseData conv REG_BINARY modernExample).val =
      some (LayoutStatus.Modern,
        { runCount := 42, focusCount := 7, focusTime := 125000,
          lastExecution := wlit "Jamais" }) := by
  refine ⟨?_, ?_, ?_, ?_⟩
  · rw [parseData_modern conv type data hsize htype hver]
  · simp only [FILETIME.ticks, le64, Nat.mod_eq_of_lt (le32_lt data 20),
      Nat.mod_eq_of_lt (le32_lt data 24)]
  · intro size size2 rest h1 h2 hdata
    have hlen : 68 ≤ (size2 ++ rest).length := by
      have := congrArg List.length hdata
      simp only [List.length_append] at this ⊢
      omega
    have hle : ∀ off, 4 ≤ off → le32 (size2 ++ rest) off = le32 data off := by
      intro off hoff
      rw [hdata, le32_append_of_le size2 rest off (by omega),
        le32_append_of_le size rest off (by omega), h1, h2]
    have hver2 : le32 (size2 ++ rest) 4 = 3 ∨ le32 (size2 ++ rest) 4 = 5 := by
      rw [hle 4 (by omega)]; exact hver
    rw [parseData_modern conv type data hsize htype hver,
      parseData_modern conv type _ hlen htype hver2]
    simp only [hle 8 (by omega), hle 12 (by omega), hle 16 (by omega), hle 20 (by omega),
      hle 24 (by omega)]
  · rw [parseData_modern conv _ modernExample (by decide) rfl (by decide)]
    have e8 : le32 modernExample 8 = 42 := by decide
    have e12 : le32 modernExample 12 = 7 := by decide
    have e16 : le32 modernExample 16 = 125000 := by decide
    have e20 : le32 modernExample 20 = 0 := by decide
    have e24 : le32 modernExample 24 = 0 := by decide
    simp only [e8, e12, e16, e20, e24, FileTimeToString, and_self, if_true]

/-- Witness of `parseData_modern_fields`: the modern example record. -/
theorem parseData_modern_fields_witness :
    68 ≤ modernExample.length ∧ (le32 modernExample 4 = 3 ∨ le32 modernExample 4 = 5) ∧
    (parseData FileTimeToSystemTime REG_BINARY modernExample).val =
      some (LayoutStatus.Modern,
        { runCount := le32 modernExample 8, focusCount := le32 modernExample 12,
          focusTime := le32 modernExample 16,
          lastExecution := FileTimeToString FileTimeToSystemTime
            ⟨le32 modernExample 20, le32 modernExample 24⟩ }) :=
  ⟨by decide, by decide,
    (parseData_modern_fields FileTimeToSystemTime REG_BINARY modernExample rfl
      (by decide) (by decide)).1⟩

/-- C5 (failing input): on the 16-byte binary record `xpExample`, whose
little-endian counter at offset 4 is 7, the parsing branch takes the
invalid-data path with runCount 0 instead of the legacy path with runCount 7. -/
theorem parseData_short_binary_invalid (conv : FILETIME → Option SYSTEMTIME) :
    xpExample.length = 16 ∧ le32 xpExample 4 = 7 ∧
    (parseData conv REG_BINARY xpExample).val =
      some (LayoutStatus.Invalid,
        { runCount := 0, focusCount := 0, focusTime := 0,
          lastExecution := wlit "Données invalides" }) := by
  refine ⟨by decide, by decide, ?_⟩
  rw [parseData_invalid conv _ _ (by decide)]

/-! ### Number rendering and the formatters -/

theorem toDigitsCore_head (fuel n : Nat) (ds : List Char) :
    ∃ d rest, d < 10 ∧ Nat.toDigitsCore 10 (fuel + 1) n ds = Nat.digitChar d :: rest := by
  induction fuel generalizing n ds with
  | zero =>
    refine ⟨n % 10, ds, Nat.mod_lt _ (by decide), ?_⟩
    simp only [Nat.toDigitsCore]
    split <;> rfl
  | succ k ih =>
    by_cases h : n / 10 = 0
    · refine ⟨n % 10, ds, Nat.mod_lt _ (by decide), ?_⟩
      rw [Nat.toDigitsCore]
      simp only [h, if_true]
    · obtain ⟨d, rest, hd, e⟩ := ih (n / 10) (Nat.digitChar (n % 10) :: ds)
      refine ⟨d, rest, hd, ?_⟩
      rw [Nat.toDigitsCore]
      simp only [h, if_false]
      exact e

theorem digitChar_toNat (d : Nat) (h : d < 10) :
    48 ≤ (Nat.digitChar d).toNat ∧ (Nat.digitChar d).toNat ≤ 57 := by
  interval_cases d <;> decide

theorem decimal_head (n : Nat) : ∃ c rest, decimal n = c :: rest ∧ 48 ≤ c ∧ c ≤ 57 := by
  obtain ⟨d, rest, hd, e⟩ := toDigitsCore_head n n []
  refine ⟨(Nat.digitChar d).toNat, rest.map Char.toNat, ?_, digitChar_toNat d hd⟩
  simp only [decimal, Nat.toDigits, e, List.map_cons]

theorem printfD_of_lt (width v : Nat) (h : v < 2 ^ 31) :
    printfD width v = List.replicate (width - (decimal v).length) 48 ++ decimal v := by
  have h1 : v % 2 ^ 32 = v := Nat.mod_eq_of_lt (by omega)
  have h2 : v % 2 ^ 32 < 2 ^ 31 := by omega
  have e : printfInt v = (false, decimal v) := by
    simp only [printfInt, h1, if_pos h]
  simp [printfD, e]

theorem printfD_head (width v : Nat) (h : v < 2 ^ 31) :
    ∃ c rest, printfD width v = c :: rest ∧ 48 ≤ c ∧ c ≤ 57 := by
  rw [printfD_of_lt width v h]
  obtain ⟨c, rest, e, hc⟩ := decimal_head v
  cases hk : width - (decimal v).length with
  | zero => exact ⟨c, rest, by simp [e], hc⟩
  | succ k => exact ⟨48, List.replicate k 48 ++ decimal v, by simp [List.replicate_succ], by omega⟩

theorem formatSystemTime_head (st : SYSTEMTIME) :
    ∃ c rest, formatSystemTime st = c :: rest ∧ 48 ≤ c ∧ c ≤ 57 := by
  obtain ⟨c, rest, e, hc⟩ := printfD_head 2 (st.wDay % 65536) (by omega)
  refine ⟨c, rest ++ (wlit "/" ++ (printfD 2 (st.wMonth % 65536) ++ (wlit "/" ++
    (printfD 4 (st.wYear % 65536) ++ (wlit " " ++ (printfD 2 (st.wHour % 65536) ++
    (wlit ":" ++ (printfD 2 (st.wMinute % 65536) ++ (wlit ":" ++
    printfD 2 (st.wSecond % 65536)))))))))), ?_, hc⟩
  simp only [formatSystemTime, e, List.cons_append, List.append_assoc]

theorem formatSystemTime_not_marker (st : SYSTEMTIME) :
    formatSystemTime st ∉ lastExecutionMarkers := by
  obtain ⟨c, rest, e, hc⟩ := formatSystemTime_head st
  rw [e]
  intro hmem
  have hm : ∀ m ∈ lastExecutionMarkers, ∀ x ∈ m.head?, 58 ≤ x := by decide
  have := hm _ hmem c (by simp)
  omega

theorem le64_eq_zero_iff (data : List Byte) (off : Nat) :
    le64 data off = 0 ↔ le32 data off = 0 ∧ le32 data (off + 4) = 0 := by
  unfold le64
  omega

theorem marker_jamais : wlit "Jamais" ∈ lastExecutionMarkers := by decide

theorem marker_invalide : wlit "Invalide" ∈ lastExecutionMarkers := by decide

theorem marker_legacy : wlit "N/A (ancienne version)" ∈ lastExecutionMarkers := by decide

theorem marker_invalid_data : wlit "Données invalides" ∈ lastExecutionMarkers := by decide

/-- C6 (counterexample): the 68-byte binary record `badTimeExample` (version 3)
is decoded by the modern path and its timestamp at offset 20 is the non-zero
value `2^63`, yet `lastExecution` holds the marker `Invalide`, not a date. -/
theorem lastExecuted_absent_despite_modern_nonzero :
    (parseData FileTimeToSystemTime REG_BINARY badTimeExample).val =
      some (LayoutStatus.Modern,
        { runCount := 42, focusCount := 7, focusTime := 125000,
          lastExecution := wlit "Invalide" }) ∧
    le64 badTimeExample 20 = 2 ^ 63 ∧
    ¬ (lastExecutedPresent
        { runCount := 42, focusCount := 7, focusTime := 125000,
          lastExecution := wlit "Invalide" } ↔
      (LayoutStatus.Modern = LayoutStatus.Modern ∧ le64 badTimeExample 20 ≠ 0)) := by
  refine ⟨by decide, by decide, ?_⟩
  decide

/-- C6 (amended): for every type and buffer the parsing branch yields a record,
and its `lastExecution` holds a date (none of the four markers) if and only if
the record was decoded by the modern path, the 64-bit timestamp at offset 20
is non-zero and the platform conversion of that timestamp succeeds; the text
is then the formatted result of the conversion. Otherwise the field holds
exactly one marker: `Jamais` on the modern path with a zero timestamp,
`Invalide` on the modern path with a non-zero timestamp the conversion rejects,
`N/A (ancienne version)` on the legacy path, `Données invalides` on the
invalid-data path. -/
theorem lastExecuted_present_iff (conv : FILETIME → Option SYSTEMTIME) (type : Nat)
    (data : List Byte) :
    ∃ layout d, (parseData conv type data).val = some (layout, d) ∧
      (lastExecutedPresent d ↔
        (layout = LayoutStatus.Modern ∧ le64 data 20 ≠ 0 ∧
          (conv ⟨le32 data 20, le32 data 24⟩).isSome = true)) ∧
      (lastExecutedPresent d →
        ∃ st, conv ⟨le32 data 20, le32 data 24⟩ = some st ∧
          d.lastExecution = formatSystemTime st) ∧
      (layout = LayoutStatus.Modern → le64 data 20 = 0 →
        d.lastExecution = wlit "Jamais") ∧
      (layout = LayoutStatus.Modern → le64 data 20 ≠ 0 →
        conv ⟨le32 data 20, le32 data 24⟩ = none → d.lastExecution = wlit "Invalide") ∧
      (layout = LayoutStatus.Legacy → d.lastExecution = wlit "N/A (ancienne version)") ∧
      (layout = LayoutStatus.Invalid → d.lastExecution = wlit "Données invalides") := by
  by_cases hg : 68 ≤ data.length ∧ type = REG_BINARY
  · by_cases hver : le32 data 4 = 3 ∨ le32 data 4 = 5
    · refine ⟨LayoutStatus.Modern,
        { runCount := le32 data 8, focusCount := le32 data 12, focusTime := le32 data 16,
          lastExecution := FileTimeToString conv ⟨le32 data 20, le32 data 24⟩ },
        by rw [parseData_modern conv type data hg.1 hg.2 hver], ?_, ?_, ?_, ?_,
        fun h => LayoutStatus.noConfusion h, fun h => LayoutStatus.noConfusion h⟩
      · simp only [lastExecutedPresent, FileTimeToString, true_and, ne_eq, le64_eq_zero_iff]
        by_cases hz : le32 data 20 = 0 ∧ le32 data (20 + 4) = 0
        · rw [if_pos hz]
          simp only [hz, not_true_eq_false, and_self, false_and, iff_false, not_not]
          exact marker_jamais
        · rw [if_neg hz]
          cases hc : conv ⟨le32 data 20, le32 data 24⟩ with
          | none =>
            simp only [Option.isSome_none, Bool.false_eq_true, and_false, iff_false, not_not]
            exact marker_invalide
          | some st =>
            simp only [Option.isSome_some, and_true]
            exact ⟨fun _ => hz, fun _ => formatSystemTime_not_marker st⟩
      · simp only [lastExecutedPresent, FileTimeToString]
        by_cases hz : le32 data 20 = 0 ∧ le32 data 24 = 0
        · rw [if_pos hz]
          intro h
          exact absurd marker_jamais h
        · rw [if_neg hz]
          cases hc : conv ⟨le32 data 20, le32 data 24⟩ with
          | none =>
            intro h
            exact absurd marker_invalide h
          | some st => exact fun _ => ⟨st, rfl, rfl⟩
      · intro _ hz
        have hz2 := (le64_eq_zero_iff data 20).1 hz
        simp only [FileTimeToString]
        rw [if_pos hz2]
      · intro _ hz hc
        have hz2 : ¬ (le32 data 20 = 0 ∧ le32 data 24 = 0) :=
          fun h => hz ((le64_eq_zero_iff data 20).2 h)
        simp only [FileTimeToString]
        rw [if_neg hz2, hc]
    · refine ⟨LayoutStatus.Legacy,
        { runCount := le32 data 4, focusCount := 0, focusTime := 0,
          lastExecution := wlit "N/A (ancienne version)" },
        by rw [parseData_legacy conv type data hg.1 hg.2 hver], ?_, ?_,
        fun h => LayoutStatus.noConfusion h, fun h => LayoutStatus.noConfusion h,
        fun _ => rfl, fun h => LayoutStatus.noConfusion h⟩
      · simp only [lastExecutedPresent, reduceCtorEq, false_and, iff_false, not_not]
        exact marker_legacy
      · intro h
        exact absurd marker_legacy h
  · refine ⟨LayoutStatus.Invalid,
      { runCount := 0, focusCount := 0, focusTime := 0,
        lastExecution := wlit "Données invalides" },
      by rw [parseData_invalid conv type data hg], ?_, ?_,
      fun h => LayoutStatus.noConfusion h, fun h => LayoutStatus.noConfusion h,
      fun h => LayoutStatus.noConfusion h, fun _ => rfl⟩
    · simp only [lastExecutedPresent, reduceCtorEq, false_and, iff_false, not_not]
      exact marker_invalid_data
    · intro h
      exact absurd marker_invalid_data h

/-- Witness of `lastExecuted_present_iff`: the record dated 2020-01-01 holds
that date, and the record with the rejected timestamp `2^63` holds `Invalide`. -/
theorem lastExecuted_present_iff_witness :
    (lastExecutedPresent
      { runCount := 3, focusCount := 1, focusTime := 2000,
        lastExecution := wlit "01/01/2020 00:00:00" } ∧
    ∃ st, FileTimeToSystemTime ⟨le32 datedExample 20, le32 datedExample 24⟩ = some st ∧
      wlit "01/01/2020 00:00:00" = formatSystemTime st) ∧
    (le64 badTimeExample 20 ≠ 0 ∧
      FileTimeToSystemTime ⟨le32 badTimeExample 20, le32 badTimeExample 24⟩ = none ∧
      (parseData FileTimeToSystemTime REG_BINARY badTimeExample).val.map
        (fun r => r.2.lastExecution) = some (wlit "Invalide")) := by
  constructor
  · obtain ⟨layout, d, h, _, himp, _⟩ :=
      lastExecuted_present_iff FileTimeToSystemTime REG_BINARY datedExample
    have hv : (parseData FileTimeToSystemTime REG_BINARY datedExample).val =
        some (LayoutStatus.Modern,
          { runCount := 3, focusCount := 1, focusTime := 2000,
            lastExecution := wlit "01/01/2020 00:00:00" }) := by decide
    rw [hv] at h
    cases h
    exact ⟨by decide, himp (by decide)⟩
  · obtain ⟨layout, d, h, _, _, _, hinv, _⟩ :=
      lastExecuted_present_iff FileTimeToSystemTime REG_BINARY badTimeExample
    have hl : (parseData FileTimeToSystemTime REG_BINARY badTimeExample).val.map
        (fun r => r.1) = some LayoutStatus.Modern := by decide
    rw [h] at hl ⊢
    simp only [Option.map_some', Option.some.injEq] at hl ⊢
    exact ⟨by decide, by decide, hinv hl (by decide) (by decide)⟩

theorem printfD_two_digits : ∀ x, x < 60 →
    printfD 2 x = if x < 10 then 48 :: decimal x else decimal x := by
  decide

theorem printfD_plain (v : Nat) (h : v < 2 ^ 31) : printfD 0 v = decimal v := by
  rw [printfD_of_lt 0 v h]
  simp

/-- C7: for every 32-bit millisecond value, `MsToTimeString` equals the
reference rendering with `h = ms / 3600000`, `m = (ms / 60000) mod 60`,
`s = (ms / 1000) mod 60`: hours, two-digit minutes and seconds when `h > 0`;
minutes and two-digit seconds when `h = 0 < m`; seconds alone otherwise.
So 0 gives `0s`, 125000 gives `2m 05s` and 3725000 gives `1h 02m 05s`. -/
theorem MsToTimeString_eq_reference (ms : Nat) (h : ms < 2 ^ 32) :
    MsToTimeString ms = durationReference ms ∧
    MsToTimeString 0 = wlit "0s" ∧
    MsToTimeString 125000 = wlit "2m 05s" ∧
    MsToTimeString 3725000 = wlit "1h 02m 05s" := by
  refine ⟨?_, by decide, by decide, by decide⟩
  have eh : ms / 1000 / 60 / 60 = ms / 3600000 := by
    rw [Nat.div_div_eq_div_mul, Nat.div_div_eq_div_mul]
  have em : ms / 1000 / 60 = ms / 60000 := by
    rw [Nat.div_div_eq_div_mul]
  have hh : ms / 3600000 < 2 ^ 31 := by omega
  have hm : ms / 60000 % 60 < 60 := Nat.mod_lt _ (by decide)
  have hs : ms / 1000 % 60 < 60 := Nat.mod_lt _ (by decide)
  have eh2 : ms / 60000 / 60 = ms / 3600000 := by
    rw [Nat.div_div_eq_div_mul]
  simp only [MsToTimeString, durationReference, eh, em, eh2, printfD_plain _ hh,
    printfD_plain _ (show ms / 60000 % 60 < 2 ^ 31 by omega),
    printfD_plain _ (show ms / 1000 % 60 < 2 ^ 31 by omega),
    printfD_two_digits _ hm, printfD_two_digits _ hs]

/-- Witness of `MsToTimeString_eq_reference`: the largest 32-bit value. -/
theorem MsToTimeString_eq_reference_witness :
    4294967295 < 2 ^ 32 ∧ MsToTimeString 4294967295 = durationReference 4294967295 :=
  ⟨by decide, (MsToTimeString_eq_reference 4294967295 (by decide)).1⟩

/-! ### The scan -/

theorem parseData_val_some (conv : FILETIME → Option SYSTEMTIME) (type : Nat)
    (data : List Byte) : ∃ r, (parseData conv type data).val = some r := by
  by_cases hg : 68 ≤ data.length ∧ type = REG_BINARY
  · by_cases hver : le32 data 4 = 3 ∨ le32 data 4 = 5
    · exact ⟨_, by rw [parseData_modern conv type data hg.1 hg.2 hver]⟩
    · exact ⟨_, by rw [parseData_legacy conv type data hg.1 hg.2 hver]⟩
  · exact ⟨_, by rw [parseData_invalid conv type data hg]⟩

theorem buildEntry_some (conv : FILETIME → Option SYSTEMTIME) (guid username valueName : WString)
    (type : Nat) (data : List Byte) :
    ∃ e, buildEntry conv guid username valueName type data = some e ∧
      e.naming = expectedNaming (wstringOfCStr guid) (wstringOfCStr username)
        (wstringOfCStr valueName) := by
  obtain ⟨r, hr⟩ := parseData_val_some conv type data
  exact ⟨{ application := wstringOfCStr valueName,
           decodedPath := DecodeROT13 (wstringOfCStr valueName),
           guid := wstringOfCStr guid, username := wstringOfCStr username,
           runCount := r.2.runCount, focusCount := r.2.focusCount,
           focusTime := r.2.focusTime, lastExecution := r.2.lastExecution },
    by simp only [buildEntry, hr], rfl⟩

theorem ParseUserAssistKey.loop_spec (conv : FILETIME → Option SYSTEMTIME)
    (guid username : WString) (outcomes : List EnumOutcome) (index : Nat)
    (entries : List UserAssistEntry) :
    ∃ built, ParseUserAssistKey.loop conv guid username outcomes index entries =
        some (index + outcomes.length, entries ++ built) ∧
      built.map UserAssistEntry.naming =
        (successfulNames (some outcomes)).map fun name =>
          expectedNaming (wstringOfCStr guid) (wstringOfCStr username)
            (wstringOfCStr name) := by
  induction outcomes generalizing index entries with
  | nil => exact ⟨[], by simp [ParseUserAssistKey.loop], rfl⟩
  | cons o rest ih =>
    cases o with
    | failure =>
      obtain ⟨built, h1, h2⟩ := ih (index + 1) entries
      refine ⟨built, ?_, ?_⟩
      · rw [ParseUserAssistKey.loop, h1, List.length_cons]
        congr 2
        omega
      · simpa [successfulNames] using h2
    | success valueName type data =>
      obtain ⟨e, he, hn⟩ := buildEntry_some conv guid username valueName type data
      obtain ⟨built, h1, h2⟩ := ih (index + 1) (entries ++ [e])
      refine ⟨e :: built, ?_, ?_⟩
      · rw [ParseUserAssistKey.loop]
        simp only [he, h1, List.length_cons, List.append_assoc, List.singleton_append]
        congr 2
        omega
      · simp only [successfulNames, List.filterMap_cons, List.map_cons, hn] at h2 ⊢
        rw [h2]

theorem ParseUserAssistKey_spec (conv : FILETIME → Option SYSTEMTIME) (key : CountKey)
    (guid username : WString) (entries : List UserAssistEntry) :
    ∃ result built, ParseUserAssistKey conv key guid username entries =
        some (result, entries ++ built) ∧
      built.map UserAssistEntry.naming =
        (successfulNames key).map fun name =>
          expectedNaming (wstringOfCStr guid) (wstringOfCStr username)
            (wstringOfCStr name) := by
  cases key with
  | none => exact ⟨false, [], by simp [ParseUserAssistKey], rfl⟩
  | some outcomes =>
    obtain ⟨built, h1, h2⟩ := ParseUserAssistKey.loop_spec conv guid username outcomes 0 entries
    exact ⟨decide (0 + outcomes.length > 0), built, by simp only [ParseUserAssistKey, h1], h2⟩

theorem wstringOfCStr_of_not_mem (name : WString) (h : 0 ∉ name) :
    wstringOfCStr name = name := by
  unfold wstringOfCStr
  rw [List.takeWhile_eq_self_iff]
  intro ch hch
  have : ch ≠ 0 := fun e => h (e ▸ hch)
  simpa using this

theorem wstringOfCStr_guids :
    wstringOfCStr GUID_EXECUTABLE = GUID_EXECUTABLE ∧
    wstringOfCStr GUID_SHORTCUT = GUID_SHORTCUT := by
  constructor <;> decide

theorem ScanUserAssist_spec (conv : FILETIME → Option SYSTEMTIME) (getUserName : Option WString)
    (keyExecutable keyShortcut : CountKey) (prior : List UserAssistEntry) :
    ∃ records, ScanUserAssist conv getUserName keyExecutable keyShortcut prior =
        some (!records.isEmpty, records) ∧
      records.map UserAssistEntry.naming =
        ((successfulNames keyExecutable).map fun name =>
            expectedNaming GUID_EXECUTABLE
              (wstringOfCStr (getUserName.getD (wlit "Utilisateur actuel")))
              (wstringOfCStr name)) ++
          ((successfulNames keyShortcut).map fun name =>
            expectedNaming GUID_SHORTCUT
              (wstringOfCStr (getUserName.getD (wlit "Utilisateur actuel")))
              (wstringOfCStr name)) := by
  obtain ⟨r1, b1, h1, n1⟩ := ParseUserAssistKey_spec conv keyExecutable GUID_EXECUTABLE
    (getUserName.getD (wlit "Utilisateur actuel")) []
  obtain ⟨r2, b2, h2, n2⟩ := ParseUserAssistKey_spec conv keyShortcut GUID_SHORTCUT
    (getUserName.getD (wlit "Utilisateur actuel")) ([] ++ b1)
  refine ⟨[] ++ b1 ++ b2, ?_, ?_⟩
  · simp only [ScanUserAssist, h1, h2]
  · rw [wstringOfCStr_guids.1] at n1
    rw [wstringOfCStr_guids.2] at n2
    simp only [List.nil_append, List.map_append, n1, n2]

theorem DecodeROT13_length (s : WString) : (DecodeROT13 s).length = s.length := by
  simp [DecodeROT13_eq_map]

theorem DecodeROT13_getElem?_of_not_letter (s : WString) (i ch : Nat)
    (hi : s[i]? = some ch) (hch : ¬ isAsciiLetter ch) : (DecodeROT13 s)[i]? = some ch := by
  simp [DecodeROT13_eq_map, List.getElem?_map, hi, rot13Char_of_not_letter ch hch]

/-- C3: for every wide string `s`, `DecodeROT13 s` has the length of `s` and
holds, at every position where `s` has a code unit that is not an ASCII
letter, that same code unit; so in every record of a scan `decodedPath` and
`application` have the same length and the same non-letters at the same
positions. -/
theorem DecodeROT13_preserves_shape (s : WString) :
    (DecodeROT13 s).length = s.length ∧
    (∀ i ch : Nat, s[i]? = some ch → ¬ isAsciiLetter ch → (DecodeROT13 s)[i]? = some ch) ∧
    (∀ (conv : FILETIME → Option SYSTEMTIME) (getUserName : Option WString)
        (keyExecutable keyShortcut : CountKey) (prior : List UserAssistEntry)
        (found : Bool) (records : List UserAssistEntry),
      ScanUserAssist conv getUserName keyExecutable keyShortcut prior = some (found, records) →
      ∀ e ∈ records, e.decodedPath.length = e.application.length ∧
        ∀ i ch : Nat, (e.application)[i]? = some ch → ¬ isAsciiLetter ch →
          (e.decodedPath)[i]? = some ch) := by
  refine ⟨DecodeROT13_length s, DecodeROT13_getElem?_of_not_letter s, ?_⟩
  intro conv getUserName keyExecutable keyShortcut prior found records hscan e he
  obtain ⟨records2, h1, h2⟩ :=
    ScanUserAssist_spec conv getUserName keyExecutable keyShortcut prior
  rw [h1] at hscan
  cases hscan
  have hmem : e.naming ∈ records.map UserAssistEntry.naming := List.mem_map_of_mem _ he
  rw [h2] at hmem
  have hdec : e.decodedPath = DecodeROT13 e.application := by
    simp only [List.mem_append, List.mem_map, expectedNaming, UserAssistEntry.naming,
      Prod.mk.injEq] at hmem
    rcases hmem with ⟨n, _, ha, hd, _⟩ | ⟨n, _, ha, hd, _⟩
    · rw [← hd, ← ha]
    · rw [← hd, ← ha]
  rw [hdec]
  exact ⟨DecodeROT13_length _, DecodeROT13_getElem?_of_not_letter _⟩

/-- Witness of `DecodeROT13_preserves_shape`: the name `HRZR_1` and the
records of a scan of `sampleKey`. -/
theorem DecodeROT13_preserves_shape_witness :
    (wlit "HRZR_1")[4]? = some 95 ∧ ¬ isAsciiLetter 95 ∧
    (DecodeROT13 (wlit "HRZR_1"))[4]? = some 95 ∧
    ∃ found records,
      ScanUserAssist FileTimeToSystemTime none sampleKey none [] = some (found, records) ∧
      records.length = 2 ∧
      ∀ e ∈ records, e.decodedPath.length = e.application.length := by
  have h := DecodeROT13_preserves_shape (wlit "HRZR_1")
  refine ⟨by decide, by decide, h.2.1 4 95 (by decide) (by decide), ?_⟩
  obtain ⟨records, h1, h2⟩ := ScanUserAssist_spec FileTimeToSystemTime none sampleKey none []
  refine ⟨_, records, h1, ?_, fun e he => (h.2.2 _ _ _ _ _ _ _ h1 e he).1⟩
  have := congrArg List.length h2
  simpa [successfulNames, sampleKey] using this

/-- C10 (counterexample): a scan of an executable category whose one value
has the name `H`, NUL, `I` records the encoded name `H` and the decoded name
`U`: the encoded name is not the raw name. -/
theorem ScanUserAssist_cuts_name_at_nul :
    ScanUserAssist FileTimeToSystemTime none
        (some [EnumOutcome.success [72, 0, 73] REG_BINARY modernExample]) none [] =
      some (true,
        [{ application := [72], decodedPath := [85], runCount := 42,
           lastExecution := wlit "Jamais", focusCount := 7, focusTime := 125000,
           guid := GUID_EXECUTABLE, username := wlit "Utilisateur actuel" }]) ∧
    ([72] : WString) ≠ [72, 0, 73] ∧
    DecodeROT13 [72, 0, 73] = [85, 0, 86] := by
  decide

/-- C10 (amended): a scan always completes and yields, whatever records were
held before, exactly one record per successful enumeration outcome and none
per failed one, in enumeration order, those of the executable category before
those of the shortcut category; a category whose key cannot be opened
contributes none. Each record has as `application` the raw name cut before
its first NUL code unit (the whole raw name when it holds none), as
`decodedPath` the ROT13 decoding of that, as `guid` the category GUID and as
`username` the user name, read likewise as a NUL-terminated string. -/
theorem ScanUserAssist_records (conv : FILETIME → Option SYSTEMTIME)
    (getUserName : Option WString) (keyExecutable keyShortcut : CountKey)
    (prior : List UserAssistEntry) :
    (∃ records, ScanUserAssist conv getUserName keyExecutable keyShortcut prior =
        some (!records.isEmpty, records) ∧
      records.map UserAssistEntry.naming =
        ((successfulNames keyExecutable).map fun name =>
            expectedNaming GUID_EXECUTABLE
              (wstringOfCStr (getUserName.getD (wlit "Utilisateur actuel")))
              (wstringOfCStr name)) ++
          ((successfulNames keyShortcut).map fun name =>
            expectedNaming GUID_SHORTCUT
              (wstringOfCStr (getUserName.getD (wlit "Utilisateur actuel")))
              (wstringOfCStr name)) ∧
      records.length =
        (successfulNames keyExecutable).length + (successfulNames keyShortcut).length) ∧
    ScanUserAssist conv getUserName keyExecutable keyShortcut prior =
      ScanUserAssist conv getUserName keyExecutable keyShortcut [] ∧
    successfulNames none = [] ∧
    (∀ name : WString, 0 ∉ name → wstringOfCStr name = name) ∧
    (∀ pre post : WString, 0 ∉ pre → wstringOfCStr (pre ++ 0 :: post) = pre) := by
  obtain ⟨records, h1, h2⟩ :=
    ScanUserAssist_spec conv getUserName keyExecutable keyShortcut prior
  refine ⟨⟨records, h1, h2, ?_⟩, rfl, rfl, wstringOfCStr_of_not_mem, ?_⟩
  · have := congrArg List.length h2
    simpa using this
  · intro pre post hpre
    induction pre with
    | nil => simp [wstringOfCStr]
    | cons x xs ih =>
      simp only [List.mem_cons, not_or] at hpre
      have hx : x ≠ 0 := fun e => hpre.1 e.symm
      have := ih hpre.2
      simp only [wstringOfCStr] at this ⊢
      rw [List.cons_append, List.takeWhile_cons, this]
      simp [hx]

/-- Witness of `ScanUserAssist_records`: the name `HI` is recorded whole, the
buffer `H`, NUL, `I` is recorded as `H`. -/
theorem ScanUserAssist_records_witness :
    (0 ∉ ([72, 73] : WString) ∧ wstringOfCStr [72, 73] = [72, 73]) ∧
    (0 ∉ ([72] : WString) ∧ wstringOfCStr ([72] ++ 0 :: [73]) = [72]) :=
  have h := ScanUserAssist_records FileTimeToSystemTime none sampleKey none []
  ⟨⟨by decide, h.2.2.2.1 [72, 73] (by decide)⟩, ⟨by decide, h.2.2.2.2 [72] [73] (by decide)⟩⟩

/-! ### The map of the comparison report -/

theorem wstrLt_irrefl (a : WString) : wstrLt a a = false := by
  induction a with
  | nil => rfl
  | cons x xs ih => simp [wstrLt, ih]

theorem wstrLt_trans (a b c : WString) (h1 : wstrLt a b = true) (h2 : wstrLt b c = true) :
    wstrLt a c = true := by
  induction a generalizing b c with
  | nil =>
    cases b with
    | nil => simp [wstrLt] at h1
    | cons y ys =>
      cases c with
      | nil => simp [wstrLt] at h2
      | cons z zs => simp [wstrLt]
  | cons x xs ih =>
    cases b with
    | nil => simp [wstrLt] at h1
    | cons y ys =>
      cases c with
      | nil => simp [wstrLt] at h2
      | cons z zs =>
        simp only [wstrLt] at h1 h2 ⊢
        by_cases hxy : x < y
        · by_cases hyz : y < z
          · have : x < z := by omega
            simp [this]
          · by_cases hzy : z < y
            · simp [hyz, hzy] at h2
            · have : x < z := by omega
              simp [this]
        · by_cases hyx : y < x
          · simp [hxy, hyx] at h1
          · simp only [hxy, hyx, if_false] at h1
            have exy : x = y := by omega
            by_cases hyz : y < z
            · have : x < z := by omega
              simp [this]
            · by_cases hzy : z < y
              · simp [hyz, hzy] at h2
              · simp only [hyz, hzy, if_false] at h2
                have hxz : ¬ x < z := by omega
                have hzx : ¬ z < x := by omega
                simp only [hxz, hzx, if_false]
                exact ih ys zs h1 h2

theorem wstrLt_total (a b : WString) (h1 : wstrLt a b = false) (h2 : a ≠ b) :
    wstrLt b a = true := by
  induction a generalizing b with
  | nil =>
    cases b with
    | nil => exact absurd rfl h2
    | cons y ys => simp [wstrLt] at h1
  | cons x xs ih =>
    cases b with
    | nil => simp [wstrLt]
    | cons y ys =>
      simp only [wstrLt] at h1 ⊢
      by_cases hxy : x < y
      · simp [hxy] at h1
      · by_cases hyx : y < x
        · simp [hyx]
        · simp only [hxy, hyx, if_false] at h1 ⊢
          have exy : x = y := by omega
          apply ih ys h1
          intro e
          exact h2 (by rw [exy, e])

theorem UserMap.find_of_not_mem (m : UserMap) (key : WString)
    (h : key ∉ m.map Prod.fst) : m.find key = [] := by
  induction m with
  | nil => rfl
  | cons kv rest ih =>
    obtain ⟨k, v⟩ := kv
    simp only [List.map_cons, List.mem_cons, not_or] at h
    simp only [UserMap.find, if_neg h.1]
    exact ih h.2

theorem UserMap.KeysSorted.not_mem_of_lt (k : WString) (v : List EntryPtr) (rest : UserMap)
    (hs : UserMap.KeysSorted ((k, v) :: rest)) (key : WString)
    (h : key = k ∨ wstrLt key k = true) : key ∉ rest.map Prod.fst := by
  intro hmem
  simp only [UserMap.KeysSorted, List.map_cons, List.pairwise_cons] at hs
  have h1 := hs.1 key hmem
  rcases h with h | h
  · rw [h, wstrLt_irrefl] at h1
    exact absurd h1 (by decide)
  · have := wstrLt_trans key k key h h1
    rw [wstrLt_irrefl] at this
    exact absurd this (by decide)

theorem UserMap.mem_keys_pushBack (m : UserMap) (key : WString) (p : EntryPtr) (k2 : WString) :
    k2 ∈ (m.pushBack key p).map Prod.fst ↔ k2 = key ∨ k2 ∈ m.map Prod.fst := by
  induction m with
  | nil => simp [UserMap.pushBack]
  | cons kv rest ih =>
    obtain ⟨k, v⟩ := kv
    simp only [UserMap.pushBack]
    split_ifs with h1 h2
    · simp only [List.map_cons, List.mem_cons, h1]
      tauto
    · simp only [List.map_cons, List.mem_cons]
    · simp only [List.map_cons, List.mem_cons, ih]
      tauto

theorem UserMap.KeysSorted.pushBack (m : UserMap) (key : WString) (p : EntryPtr)
    (hs : m.KeysSorted) : (m.pushBack key p).KeysSorted := by
  induction m with
  | nil => simp [UserMap.pushBack, UserMap.KeysSorted]
  | cons kv rest ih =>
    obtain ⟨k, v⟩ := kv
    have hs2 := hs
    simp only [UserMap.KeysSorted, List.map_cons, List.pairwise_cons] at hs2
    simp only [UserMap.pushBack]
    split_ifs with h1 h2
    · exact hs
    · simp only [UserMap.KeysSorted, List.map_cons, List.pairwise_cons, List.mem_cons]
      refine ⟨?_, hs2⟩
      intro k2 hk2
      rcases hk2 with hk2 | hk2
      · rw [hk2]; exact h2
      · exact wstrLt_trans key k k2 h2 (hs2.1 k2 hk2)
    · simp only [UserMap.KeysSorted, List.map_cons, List.pairwise_cons]
      refine ⟨?_, ih hs2.2⟩
      intro k2 hk2
      rw [UserMap.mem_keys_pushBack] at hk2
      rcases hk2 with hk2 | hk2
      · rw [hk2]
        exact wstrLt_total key k (by simpa using h2) h1
      · exact hs2.1 k2 hk2

theorem UserMap.find_pushBack (m : UserMap) (key : WString) (p : EntryPtr) (k2 : WString)
    (hs : m.KeysSorted) :
    (m.pushBack key p).find k2 = if k2 = key then m.find key ++ [p] else m.find k2 := by
  induction m with
  | nil =>
    simp only [UserMap.pushBack, UserMap.find]
    split_ifs <;> simp
  | cons kv rest ih =>
    obtain ⟨k, v⟩ := kv
    have hs2 := hs
    simp only [UserMap.KeysSorted, List.map_cons, List.pairwise_cons] at hs2
    by_cases h1 : key = k
    · simp only [UserMap.pushBack, if_pos h1]
      by_cases h3 : k2 = key
      · have h4 : k2 = k := h3.trans h1
        simp [UserMap.find, h1, h3, h4]
      · have h4 : ¬ k2 = k := fun e => h3 (e.trans h1.symm)
        simp [UserMap.find, h1, h3, h4]
    · by_cases h2 : wstrLt key k = true
      · simp only [UserMap.pushBack, if_neg h1, if_pos h2]
        have hnot := UserMap.KeysSorted.not_mem_of_lt k v rest hs key (Or.inr h2)
        by_cases h3 : k2 = key
        · simp [UserMap.find, h3, h1, UserMap.find_of_not_mem rest key hnot]
        · simp [UserMap.find, h3]
      · simp only [UserMap.pushBack, if_neg h1, if_neg h2]
        have e := ih hs2.2
        by_cases h3 : k2 = key
        · rw [if_pos h3] at e
          rw [if_pos h3]
          have h4 : ¬ k2 = k := fun e2 => h1 (h3.symm.trans e2)
          simp only [UserMap.find, if_neg h4, if_neg h1]
          exact e
        · rw [if_neg h3] at e
          rw [if_neg h3]
          simp only [UserMap.find]
          rw [e]

theorem groupLoop_spec (entries : List UserAssistEntry) (addr : Nat) (m : UserMap)
    (hs : m.KeysSorted) :
    (groupLoop entries addr m).KeysSorted ∧
    (∀ k, k ∈ (groupLoop entries addr m).map Prod.fst ↔
      k ∈ m.map Prod.fst ∨ ∃ e ∈ entries, e.username = k) ∧
    (∀ k, (groupLoop entries addr m).find k =
      m.find k ++ (ptrsFrom entries addr).filter fun p => decide (p.target.username = k)) := by
  induction entries generalizing addr m with
  | nil => simp [groupLoop, ptrsFrom, hs]
  | cons e rest ih =>
    obtain ⟨h1, h2, h3⟩ := ih (addr + 1) (m.pushBack e.username ⟨addr, e⟩)
      (UserMap.KeysSorted.pushBack m _ _ hs)
    refine ⟨h1, ?_, ?_⟩
    · intro k
      rw [groupLoop, h2, UserMap.mem_keys_pushBack]
      simp only [List.mem_cons, exists_eq_or_imp]
      constructor
      · rintro ((h | h) | h)
        · exact Or.inr (Or.inl h.symm)
        · exact Or.inl h
        · exact Or.inr (Or.inr h)
      · rintro (h | h | h)
        · exact Or.inl (Or.inr h)
        · exact Or.inl (Or.inl h.symm)
        · exact Or.inr h
    · intro k
      rw [groupLoop, h3, UserMap.find_pushBack m _ _ k hs]
      by_cases hk : k = e.username
      · simp [ptrsFrom, hk]
      · have hk2 : ¬ e.username = k := fun h => hk h.symm
        simp [ptrsFrom, hk, hk2]

theorem UserMap.mem_iff_find (m : UserMap) (hs : m.KeysSorted) (k : WString)
    (v : List EntryPtr) : (k, v) ∈ m ↔ k ∈ m.map Prod.fst ∧ v = m.find k := by
  induction m with
  | nil => simp
  | cons kv rest ih =>
    obtain ⟨k1, v1⟩ := kv
    have hs2 := hs
    simp only [UserMap.KeysSorted, List.map_cons, List.pairwise_cons] at hs2
    by_cases hk : k = k1
    · have hnot := UserMap.KeysSorted.not_mem_of_lt k1 v1 rest hs k (Or.inl hk)
      have hnot2 : (k, v) ∉ rest := fun h => hnot (List.mem_map_of_mem Prod.fst h)
      subst hk
      simp only [List.mem_cons, Prod.mk.injEq, true_and, hnot2, or_false, List.map_cons,
        true_or, UserMap.find, if_true]
    · simp only [List.mem_cons, Prod.mk.injEq, hk, false_and, false_or, List.map_cons,
        UserMap.find, if_false]
      exact ih hs2.2

theorem userEntries_spec (entries : List UserAssistEntry) :
    ((userEntries entries).map Prod.fst).Nodup ∧
    (∀ k, k ∈ (userEntries entries).map Prod.fst ↔ ∃ e ∈ entries, e.username = k) ∧
    (∀ pair ∈ userEntries entries, pair.2 = ownerPtrs entries pair.1) := by
  have hnil : UserMap.KeysSorted [] := by simp [UserMap.KeysSorted]
  obtain ⟨h1, h2, h3⟩ := groupLoop_spec entries 0 [] hnil
  refine ⟨?_, ?_, ?_⟩
  · refine List.Pairwise.imp ?_ h1
    intro a b hab e
    rw [e, wstrLt_irrefl] at hab
    exact absurd hab (by decide)
  · intro k
    have := h2 k
    simpa using this
  · rintro ⟨k, v⟩ hmem
    have := (UserMap.mem_iff_find _ h1 k v).1 hmem
    rw [this.2]
    have e := h3 k
    simp only [UserMap.find, List.nil_append] at e
    exact e

/-! ### Sorting -/

theorem byRunCount_strictWeakOrder : StrictWeakOrder byRunCount := by
  refine ⟨?_, ?_, ?_⟩
  · intro a
    simp [byRunCount]
  · intro a b c h1 h2
    simp only [byRunCount, decide_eq_true_eq] at h1 h2 ⊢
    omega
  · intro a b c h1 h2
    simp only [byRunCount, decide_eq_false_iff_not] at h1 h2 ⊢
    omega

theorem insertSorted_perm (cmp : EntryPtr → EntryPtr → Bool) (x : EntryPtr)
    (l : List EntryPtr) : (insertSorted cmp x l).Perm (x :: l) := by
  induction l with
  | nil => exact List.Perm.refl _
  | cons y ys ih =>
    simp only [insertSorted]
    split_ifs
    · exact (List.Perm.cons y ih).trans (List.Perm.swap x y ys)
    · exact List.Perm.refl _

theorem insertSorted_pairwise (cmp : EntryPtr → EntryPtr → Bool) (hc : StrictWeakOrder cmp)
    (x : EntryPtr) (l : List EntryPtr) (hl : l.Pairwise fun a b => cmp b a = false) :
    (insertSorted cmp x l).Pairwise fun a b => cmp b a = false := by
  obtain ⟨hirr, htr, hneg⟩ := hc
  induction l with
  | nil => simp [insertSorted]
  | cons y ys ih =>
    rw [List.pairwise_cons] at hl
    simp only [insertSorted]
    by_cases hyx : cmp y x = true
    · rw [if_pos hyx, List.pairwise_cons]
      refine ⟨?_, ih hl.2⟩
      intro z hz
      have hz2 := (insertSorted_perm cmp x ys).subset hz
      rcases List.mem_cons.1 hz2 with e | hmem
      · rw [e]
        cases hxy : cmp x y with
        | false => rfl
        | true =>
          have := htr x y x hxy hyx
          rw [hirr] at this
          exact absurd this (by decide)
      · exact hl.1 z hmem
    · rw [if_neg hyx, List.pairwise_cons, List.pairwise_cons]
      have hyx2 : cmp y x = false := by simpa using hyx
      refine ⟨?_, hl⟩
      intro z hz
      rcases List.mem_cons.1 hz with e | hmem
      · rw [e]; exact hyx2
      · exact hneg z y x (hl.1 z hmem) hyx2

theorem insertionSort_spec : StdSortSpec insertionSort := by
  intro cmp l hc
  induction l with
  | nil => exact ⟨List.Perm.refl _, List.Pairwise.nil⟩
  | cons x xs ih =>
    refine ⟨?_, ?_⟩
    · exact (insertSorted_perm cmp x _).trans (List.Perm.cons x ih.1)
    · exact insertSorted_pairwise cmp hc x _ ih.2

/-! ### The ranked lines -/

theorem topLines_length (r : List EntryPtr) : (topLines r).length = min 5 r.length := by
  simp [topLines, List.enumFrom_length]

theorem topLines_rank (r : List EntryPtr) :
    (topLines r).map ReportLine.rank = List.range' 1 (min 5 r.length) := by
  simp only [topLines, List.map_map]
  have : (ReportLine.rank ∘ fun ip : Nat × EntryPtr =>
      ({ rank := ip.1, decodedPath := ip.2.target.decodedPath,
         runCount := ip.2.target.runCount } : ReportLine)) = Prod.fst := rfl
  rw [this, List.enumFrom_map_fst, List.length_take]

theorem topLines_runCount (r : List EntryPtr) :
    (topLines r).map ReportLine.runCount = (r.take 5).map fun p => p.target.runCount := by
  simp only [topLines, List.map_map]
  have : (ReportLine.runCount ∘ fun ip : Nat × EntryPtr =>
      ({ rank := ip.1, decodedPath := ip.2.target.decodedPath,
         runCount := ip.2.target.runCount } : ReportLine)) =
      (fun p : EntryPtr => p.target.runCount) ∘ Prod.snd := rfl
  rw [this, ← List.map_map, List.enumFrom_map_snd]

theorem topLines_cons (p : EntryPtr) (r : List EntryPtr) :
    ∃ rest, topLines (p :: r) =
      { rank := 1, decodedPath := p.target.decodedPath, runCount := p.target.runCount } :: rest := by
  refine ⟨(List.enumFrom (1 + 1) (List.take 4 r)).map fun ip =>
    { rank := ip.1, decodedPath := ip.2.target.decodedPath, runCount := ip.2.target.runCount },
    ?_⟩
  simp only [topLines, List.take_succ_cons, List.enumFrom_cons, List.map_cons]

theorem ptrsFrom_map_target (entries : List UserAssistEntry) (addr : Nat) :
    (ptrsFrom entries addr).map EntryPtr.target = entries := by
  induction entries generalizing addr with
  | nil => rfl
  | cons e rest ih => simp [ptrsFrom, ih]

theorem ownerPtrs_map_target (entries : List UserAssistEntry) (user : WString) :
    (ownerPtrs entries user).map EntryPtr.target =
      entries.filter fun e => decide (e.username = user) := by
  have h := ptrsFrom_map_target entries 0
  simp only [ownerPtrs]
  conv_rhs => rw [← h]
  rw [List.filter_map]
  rfl

/-! ### The comparison report -/

theorem ranked_spec (sort : SortFn) (hsort : StdSortSpec sort) (ptrs : List EntryPtr) :
    (ranked sort ptrs).Perm ptrs ∧
    (ranked sort ptrs).Pairwise fun a b => b.target.runCount ≤ a.target.runCount := by
  obtain ⟨h1, h2⟩ := hsort byRunCount ptrs byRunCount_strictWeakOrder
  refine ⟨h1, List.Pairwise.imp ?_ h2⟩
  intro a b hab
  simp only [byRunCount, decide_eq_false_iff_not] at hab
  omega

theorem OnCompare_of_ne_nil (sort : SortFn) (entries : List UserAssistEntry)
    (hne : entries ≠ []) :
    OnCompare sort entries = some ((userEntries entries).map (reportGroup sort)) := by
  cases entries with
  | nil => exact absurd rfl hne
  | cons e rest => rfl

theorem topLines_fields (r : List EntryPtr) :
    (topLines r).map (fun l => (l.decodedPath, l.runCount)) =
      (r.take 5).map fun p => (p.target.decodedPath, p.target.runCount) := by
  simp only [topLines, List.map_map]
  have : ((fun l : ReportLine => (l.decodedPath, l.runCount)) ∘ fun ip : Nat × EntryPtr =>
      ({ rank := ip.1, decodedPath := ip.2.target.decodedPath,
         runCount := ip.2.target.runCount } : ReportLine)) =
      (fun p : EntryPtr => (p.target.decodedPath, p.target.runCount)) ∘ Prod.snd := rfl
  rw [this, ← List.map_map, List.enumFrom_map_snd]

/-- C8 (counterexample): on seventeen records of one user that all have run
count 1, `std::sort` of libstdc++ ranks the records in the order 8, 16, 15,
..., 9, 0, 7, 6, ..., 1 of their positions, so the ranking is not stable and
the report lists `app8`, `app16`, `app15`, `app14`, `app13` instead of the
first five records of the sequence. -/
theorem ranking_not_stable :
    (Gnu.sort byRunCount (ownerPtrs seventeenTied (wlit "alice"))).map
        (fun l => l.map EntryPtr.addr) =
      some [8, 16, 15, 14, 13, 12, 11, 10, 9, 0, 7, 6, 5, 4, 3, 2, 1] ∧
    ¬ RankingStable gnuSort seventeenTied ∧
    (OnCompare gnuSort seventeenTied).map
        (fun report => report.map fun g => (g.count, g.top.map ReportLine.decodedPath)) =
      some [(17, [wlit "app8", wlit "app16", wlit "app15", wlit "app14", wlit "app13"])] := by
  refine ⟨by decide, ?_, by decide⟩
  intro h
  have h2 := h (wlit "alice", ownerPtrs seventeenTied (wlit "alice")) (by decide)
    ⟨0, tiedEntry 0⟩ (by decide) ⟨8, tiedEntry 8⟩ (by decide) (by decide) (by decide)
  revert h2
  decide

/-- C8 (amended): whatever admissible behaviour `std::sort` has, the ranking of
the comparison report is a sort by runCount descending: the report has one
group for every owner identity of the record sequence, and for each group the
ranked list is a rearrangement of all records of that owner in which runCount
never increases; the group lists the decoded names and run counts of its
first five, ranked from 1. The order of records with equal runCount is not
fixed. -/
theorem ranking_sorted_descending (sort : SortFn) (hsort : StdSortSpec sort)
    (entries : List UserAssistEntry) (hne : entries ≠ []) :
    ∃ report, OnCompare sort entries = some report ∧
      (report.map ReportGroup.username).Nodup ∧
      (∀ e ∈ entries, ∃ g ∈ report, g.username = e.username) ∧
      ∀ g ∈ report, ∃ rankedRecords : List UserAssistEntry,
        rankedRecords.Perm (entries.filter fun e => decide (e.username = g.username)) ∧
        (rankedRecords.Pairwise fun a b => b.runCount ≤ a.runCount) ∧
        g.top.map ReportLine.rank = List.range' 1 (min 5 rankedRecords.length) ∧
        g.top.map (fun l => (l.decodedPath, l.runCount)) =
          (rankedRecords.take 5).map fun e => (e.decodedPath, e.runCount) := by
  have husers : ((userEntries entries).map (reportGroup sort)).map ReportGroup.username =
      (userEntries entries).map Prod.fst := by
    rw [List.map_map]
    rfl
  refine ⟨_, OnCompare_of_ne_nil sort entries hne, ?_, ?_, ?_⟩
  · rw [husers]
    exact (userEntries_spec entries).1
  · intro e he
    have hk : e.username ∈ (userEntries entries).map Prod.fst :=
      ((userEntries_spec entries).2.1 e.username).2 ⟨e, he, rfl⟩
    rw [← husers] at hk
    obtain ⟨g, hg, hu⟩ := List.mem_map.1 hk
    exact ⟨g, hg, hu⟩
  · intro g hg
    obtain ⟨pair, hpair, rfl⟩ := List.mem_map.1 hg
    obtain ⟨h1, h2⟩ := ranked_spec sort hsort pair.2
    have hown := (userEntries_spec entries).2.2 pair hpair
    have hu : (reportGroup sort pair).username = pair.1 := rfl
    refine ⟨(ranked sort pair.2).map EntryPtr.target, ?_, ?_, ?_, ?_⟩
    · rw [hu, ← ownerPtrs_map_target, ← hown]
      exact h1.map _
    · rw [List.pairwise_map]
      exact h2
    · simp only [reportGroup, topLines_rank, List.length_map]
    · simp only [reportGroup, topLines_fields, ← List.map_take, List.map_map]
      rfl

/-- Witness of `ranking_sorted_descending`: insertion sort on the sample
records. -/
theorem ranking_sorted_descending_witness :
    StdSortSpec insertionSort ∧ sampleEntries ≠ [] ∧
    ∃ report, OnCompare insertionSort sampleEntries = some report ∧
      (report.map ReportGroup.username).Nodup ∧
      (∀ e ∈ sampleEntries, ∃ g ∈ report, g.username = e.username) ∧
      ∀ g ∈ report, ∃ rankedRecords : List UserAssistEntry,
        rankedRecords.Perm (sampleEntries.filter fun e => decide (e.username = g.username)) ∧
        (rankedRecords.Pairwise fun a b => b.runCount ≤ a.runCount) ∧
        g.top.map ReportLine.rank = List.range' 1 (min 5 rankedRecords.length) ∧
        g.top.map (fun l => (l.decodedPath, l.runCount)) =
          (rankedRecords.take 5).map fun e => (e.decodedPath, e.runCount) :=
  ⟨insertionSort_spec, by decide,
    ranking_sorted_descending insertionSort insertionSort_spec sampleEntries (by decide)⟩

theorem reportGroup_spec (sort : SortFn) (hsort : StdSortSpec sort)
    (entries : List UserAssistEntry) (pair : WString × List EntryPtr)
    (hpair : pair ∈ userEntries entries) :
    (reportGroup sort pair).count =
      (entries.filter fun e => decide (e.username = pair.1)).length ∧
    (reportGroup sort pair).top.length = min 5 (reportGroup sort pair).count ∧
    (reportGroup sort pair).top.map ReportLine.rank =
      List.range' 1 (min 5 (reportGroup sort pair).count) ∧
    ((reportGroup sort pair).top.map ReportLine.runCount).Pairwise (fun x y => y ≤ x) ∧
    (∀ l ∈ (reportGroup sort pair).top.head?,
      (∀ e ∈ entries, e.username = pair.1 → e.runCount ≤ l.runCount) ∧
      ∃ e ∈ entries, e.username = pair.1 ∧ e.runCount = l.runCount ∧
        e.decodedPath = l.decodedPath) ∧
    (∀ p ∈ (ranked sort pair.2).drop 5, ∀ l ∈ (reportGroup sort pair).top,
      p.target.runCount ≤ l.runCount) := by
  obtain ⟨hperm, hsorted⟩ := ranked_spec sort hsort pair.2
  have hown := (userEntries_spec entries).2.2 pair hpair
  have htargets : ∀ p, p ∈ ranked sort pair.2 ↔ p ∈ ownerPtrs entries pair.1 := by
    intro p
    rw [← hown]
    exact hperm.mem_iff
  have hmemEntries : ∀ p ∈ ranked sort pair.2, p.target ∈ entries ∧ p.target.username = pair.1 := by
    intro p hp
    have h1 : p.target ∈ (ownerPtrs entries pair.1).map EntryPtr.target :=
      List.mem_map_of_mem _ ((htargets p).1 hp)
    rw [ownerPtrs_map_target] at h1
    simpa using h1
  have hcount : pair.2.length = (entries.filter fun e => decide (e.username = pair.1)).length := by
    rw [hown, ← ownerPtrs_map_target, List.length_map]
  have hlen : (ranked sort pair.2).length = pair.2.length := hperm.length_eq
  have htake : (ranked sort pair.2).take 5 ++ (ranked sort pair.2).drop 5 = ranked sort pair.2 :=
    List.take_append_drop 5 _
  refine ⟨hcount, ?_, ?_, ?_, ?_, ?_⟩
  · simp only [reportGroup, topLines_length, hlen]
  · simp only [reportGroup, topLines_rank, hlen]
  · simp only [reportGroup, topLines_runCount]
    rw [List.pairwise_map]
    exact hsorted.sublist (List.take_sublist 5 _)
  · intro l hl
    simp only [reportGroup] at hl
    cases hr : ranked sort pair.2 with
    | nil =>
      rw [hr] at hl
      simp [topLines] at hl
    | cons p0 rest =>
      obtain ⟨more, hmore⟩ := topLines_cons p0 rest
      rw [hr, hmore] at hl
      simp only [List.head?_cons, Option.mem_def, Option.some.injEq] at hl
      subst hl
      rw [hr] at hsorted
      rw [List.pairwise_cons] at hsorted
      have hp0 := hmemEntries p0 (by rw [hr]; exact List.mem_cons_self _ _)
      refine ⟨?_, p0.target, hp0.1, hp0.2, rfl, rfl⟩
      intro e he hu
      have h1 : e ∈ (ownerPtrs entries pair.1).map EntryPtr.target := by
        rw [ownerPtrs_map_target]
        simp [he, hu]
      obtain ⟨p, hp, hpe⟩ := List.mem_map.1 h1
      have hp2 := (htargets p).2 hp
      rw [hr] at hp2
      rcases List.mem_cons.1 hp2 with e2 | hmem
      · rw [← hpe, e2]
      · rw [← hpe]
        exact hsorted.1 p hmem
  · intro p hp l hl
    have hl2 : l.runCount ∈ ((reportGroup sort pair).top.map ReportLine.runCount) :=
      List.mem_map_of_mem _ hl
    simp only [reportGroup, topLines_runCount] at hl2
    obtain ⟨q, hq, hql⟩ := List.mem_map.1 hl2
    rw [← htake, List.pairwise_append] at hsorted
    rw [← hql]
    exact hsorted.2.2 q hq p hp

theorem ranked_pair (sort : SortFn) (hsort : StdSortSpec sort) (a b : EntryPtr)
    (hab : a.target.runCount < b.target.runCount) : ranked sort [a, b] = [b, a] := by
  obtain ⟨hperm, hsorted⟩ := ranked_spec sort hsort [a, b]
  have hne : a ≠ b := by
    intro e
    rw [e] at hab
    exact absurd hab (Nat.lt_irrefl _)
  have hlen := hperm.length_eq
  match hr : ranked sort [a, b], hlen with
  | [x, y], _ =>
    rw [hr] at hperm hsorted
    have hx : x ∈ [a, b] := hperm.subset (by simp)
    have hy : y ∈ [a, b] := hperm.subset (by simp)
    have hnd : [x, y].Nodup := hperm.nodup_iff.2 (by simp [hne])
    simp only [List.pairwise_cons, List.mem_singleton, forall_eq, List.not_mem_nil,
      false_implies, implies_true, List.Pairwise.nil, and_true] at hsorted
    simp only [List.nodup_cons, List.mem_singleton, List.not_mem_nil, not_false_eq_true,
      List.nodup_nil, and_true] at hnd
    simp only [List.mem_cons, List.mem_singleton, List.not_mem_nil, or_false] at hx hy
    rcases hx with hx | hx <;> rcases hy with hy | hy
    · exact absurd (hx.trans hy.symm) hnd
    · rw [hx, hy] at hsorted
      omega
    · rw [hx, hy]
    · exact absurd (hx.trans hy.symm) hnd

/-- C9: for every non-empty record sequence (and whatever admissible behaviour
`std::sort` has) the comparison report has exactly one group per distinct
owner; a group of an owner with `n` records reports the count `n` and lists
`min 5 n` lines ranked `1 .. min 5 n`, with non-increasing runCounts, the
first line carrying the maximum runCount of the owner's records, and no
unlisted record of the owner having a runCount above a listed one. For
`[(alice, 10), (alice, 50), (bob, 5)]` the report has the two groups alice and
bob, and alice's list starts with the 50-run entry. -/
theorem OnCompare_report (sort : SortFn) (hsort : StdSortSpec sort)
    (entries : List UserAssistEntry) (hne : entries ≠ []) :
    (∃ report, OnCompare sort entries = some report ∧
      (report.map ReportGroup.username).Nodup ∧
      (∀ u, u ∈ report.map ReportGroup.username ↔ ∃ e ∈ entries, e.username = u) ∧
      ∀ g ∈ report,
        g.count = (entries.filter fun e => decide (e.username = g.username)).length ∧
        g.top.length = min 5 g.count ∧
        g.top.map ReportLine.rank = List.range' 1 (min 5 g.count) ∧
        (g.top.map ReportLine.runCount).Pairwise (fun x y => y ≤ x) ∧
        (∀ l ∈ g.top.head?,
          (∀ e ∈ entries, e.username = g.username → e.runCount ≤ l.runCount) ∧
          ∃ e ∈ entries, e.username = g.username ∧ e.runCount = l.runCount ∧
            e.decodedPath = l.decodedPath) ∧
        ∃ rankedPtrs : List EntryPtr,
          rankedPtrs.Perm (ownerPtrs entries g.username) ∧
          g.top = topLines rankedPtrs ∧
          ∀ p ∈ rankedPtrs.drop 5, ∀ l ∈ g.top, p.target.runCount ≤ l.runCount) ∧
    (∃ g1 g2 rest, OnCompare sort sampleEntries = some [g1, g2] ∧
      g1.username = wlit "alice" ∧ g2.username = wlit "bob" ∧
      g1.top = { rank := 1, decodedPath := wlit "b.exe", runCount := 50 } :: rest) := by
  constructor
  · refine ⟨_, OnCompare_of_ne_nil sort entries hne, ?_, ?_, ?_⟩
    · have h := (userEntries_spec entries).1
      have e : ((userEntries entries).map (reportGroup sort)).map ReportGroup.username =
          (userEntries entries).map Prod.fst := by
        rw [List.map_map]
        rfl
      rw [e]
      exact h
    · intro u
      have e : ((userEntries entries).map (reportGroup sort)).map ReportGroup.username =
          (userEntries entries).map Prod.fst := by
        rw [List.map_map]
        rfl
      rw [e]
      exact (userEntries_spec entries).2.1 u
    · intro g hg
      obtain ⟨pair, hpair, rfl⟩ := List.mem_map.1 hg
      obtain ⟨h1, h2, h3, h4, h5, h6⟩ := reportGroup_spec sort hsort entries pair hpair
      refine ⟨h1, h2, h3, h4, h5, ranked sort pair.2, ?_, rfl, h6⟩
      have hu : (reportGroup sort pair).username = pair.1 := rfl
      rw [hu, ← (userEntries_spec entries).2.2 pair hpair]
      exact (ranked_spec sort hsort pair.2).1
  · have hmap : userEntries sampleEntries =
        [(wlit "alice", [⟨0, sampleEntry "alice" "a.exe" 10⟩, ⟨1, sampleEntry "alice" "b.exe" 50⟩]),
         (wlit "bob", [⟨2, sampleEntry "bob" "c.exe" 5⟩])] := by decide
    have hr := ranked_pair sort hsort ⟨0, sampleEntry "alice" "a.exe" 10⟩
      ⟨1, sampleEntry "alice" "b.exe" 50⟩ (by decide)
    obtain ⟨rest, hrest⟩ := topLines_cons ⟨1, sampleEntry "alice" "b.exe" 50⟩
      [⟨0, sampleEntry "alice" "a.exe" 10⟩]
    refine ⟨reportGroup sort (wlit "alice", [⟨0, sampleEntry "alice" "a.exe" 10⟩,
        ⟨1, sampleEntry "alice" "b.exe" 50⟩]),
      reportGroup sort (wlit "bob", [⟨2, sampleEntry "bob" "c.exe" 5⟩]), rest, ?_, rfl, rfl, ?_⟩
    · rw [OnCompare_of_ne_nil sort sampleEntries (by decide), hmap]
      rfl
    · simp only [reportGroup, hr, hrest]
      rfl

/-- Witness of `OnCompare_report`: insertion sort on the sample records. -/
theorem OnCompare_report_witness :
    StdSortSpec insertionSort ∧ sampleEntries ≠ [] ∧
    ∃ g1 g2 rest, OnCompare insertionSort sampleEntries = some [g1, g2] ∧
      g1.username = wlit "alice" ∧ g2.username = wlit "bob" ∧
      g1.top = { rank := 1, decodedPath := wlit "b.exe", runCount := 50 } :: rest :=
  ⟨insertionSort_spec, by decide,
    (OnCompare_report insertionSort insertionSort_spec sampleEntries (by decide)).2⟩

/-! ### The header example and the legacy path -/

/-- C11 (counterexample): `DecodeROT13` does not map the name
`HRZR_PGYFRFFVATF` of the file header to `UEME_EXECUTABLES`; no transform
that replaces each code unit on its own could, since the header example has
`F` become `C`, `T`, `A` and `S`. -/
theorem DecodeROT13_header_example_fails :
    DecodeROT13 (wlit "HRZR_PGYFRFFVATF") ≠ wlit "UEME_EXECUTABLES" ∧
    ¬ ∃ f : Nat → Nat, (wlit "HRZR_PGYFRFFVATF").map f = wlit "UEME_EXECUTABLES" := by
  refine ⟨by decide, ?_⟩
  rintro ⟨f, hf⟩
  have h8 := congrArg (fun l : WString => l[8]?) hf
  have h10 := congrArg (fun l : WString => l[10]?) hf
  have e8 : (wlit "HRZR_PGYFRFFVATF")[8]? = some 70 := by decide
  have e10 : (wlit "HRZR_PGYFRFFVATF")[10]? = some 70 := by decide
  have r8 : (wlit "UEME_EXECUTABLES")[8]? = some 67 := by decide
  have r10 : (wlit "UEME_EXECUTABLES")[10]? = some 84 := by decide
  simp only [List.getElem?_map, e8, e10, r8, r10, Option.map_some', Option.some.injEq] at h8 h10
  omega

/-- C11 (amended): `DecodeROT13` maps the name `HRZR_PGYFRFFVATF` of the file
header to `UEME_CTLSESSINGS`; the name it maps to `UEME_EXECUTABLES` is
`HRZR_RKRPHGNOYRF`. -/
theorem DecodeROT13_header_example :
    DecodeROT13 (wlit "HRZR_PGYFRFFVATF") = wlit "UEME_CTLSESSINGS" ∧
    DecodeROT13 (wlit "HRZR_RKRPHGNOYRF") = wlit "UEME_EXECUTABLES" := by
  constructor <;> decide

theorem FileTimeToString_ne_legacy (conv : FILETIME → Option SYSTEMTIME) (ft : FILETIME) :
    FileTimeToString conv ft ≠ wlit "N/A (ancienne version)" := by
  unfold FileTimeToString
  split_ifs
  · decide
  · cases conv ft with
    | none => decide
    | some st =>
      intro h
      have h2 : formatSystemTime st = wlit "N/A (ancienne version)" := h
      exact formatSystemTime_not_marker st (by rw [h2]; exact marker_legacy)

/-- C12: whenever the parsing branch yields the legacy marker
`N/A (ancienne version)` in `lastExecution`, the record was decoded by the
legacy path, the buffer is declared `REG_BINARY` and has at least 68 bytes,
and runCount is the little-endian 32-bit version field at offset 4, read a
second time; so that runCount is neither 3 nor 5, and the test
`dataSize >= 8` of the branch holds. -/
theorem parseData_legacy_only_when_long (conv : FILETIME → Option SYSTEMTIME) (type : Nat)
    (data : List Byte) (layout : LayoutStatus) (d : ParsedData)
    (hval : (parseData conv type data).val = some (layout, d))
    (hmark : d.lastExecution = wlit "N/A (ancienne version)") :
    layout = LayoutStatus.Legacy ∧ type = REG_BINARY ∧ 68 ≤ data.length ∧
    d.runCount = le32 data 4 ∧ d.runCount ≠ 3 ∧ d.runCount ≠ 5 ∧ 8 ≤ data.length ∧
    (parseData conv type data).trace = [4, 5, 6, 7, 4, 5, 6, 7] := by
  by_cases hg : 68 ≤ data.length ∧ type = REG_BINARY
  · by_cases hver : le32 data 4 = 3 ∨ le32 data 4 = 5
    · rw [parseData_modern conv type data hg.1 hg.2 hver] at hval
      simp only [Option.some.injEq, Prod.mk.injEq] at hval
      rw [← hval.2] at hmark
      exact absurd hmark (FileTimeToString_ne_legacy conv _)
    · rw [parseData_legacy conv type data hg.1 hg.2 hver] at hval ⊢
      simp only [Option.some.injEq, Prod.mk.injEq] at hval
      have hrun : d.runCount = le32 data 4 := by rw [← hval.2]
      refine ⟨hval.1.symm, hg.2, hg.1, hrun, ?_, ?_, by omega, rfl⟩
      · rw [hrun]; exact fun h => hver (Or.inl h)
      · rw [hrun]; exact fun h => hver (Or.inr h)
  · rw [parseData_invalid conv type data hg] at hval
    simp only [Option.some.injEq, Prod.mk.injEq] at hval
    rw [← hval.2] at hmark
    exact absurd hmark (by decide)

/-- Witness of `parseData_legacy_only_when_long`: the 68-byte record with
version 2, whose runCount comes out as 2. -/
theorem parseData_legacy_only_when_long_witness :
    (parseData FileTimeToSystemTime REG_BINARY legacyExample).val =
      some (LayoutStatus.Legacy,
        { runCount := 2, focusCount := 0, focusTime := 0,
          lastExecution := wlit "N/A (ancienne version)" }) ∧
    68 ≤ legacyExample.length ∧ (2 : Nat) = le32 legacyExample 4 :=
  have h := parseData_legacy_only_when_long FileTimeToSystemTime REG_BINARY legacyExample
    LayoutStatus.Legacy
    { runCount := 2, focusCount := 0, focusTime := 0,
      lastExecution := wlit "N/A (ancienne version)" } (by decide) rfl
  ⟨by decide, h.2.2.1, h.2.2.2.1⟩

end UserAssist
